import Mathlib

/-!
# Verification of the euporious org-catalog enrichment scripts

Shallow embedding of the matching / merging core of the repository
(`match_movies.py`, `enrich_org_tmdb.py`, `update_tmdb_from_suggested.py`,
`inject_knowledge_properties.py`, `deduplicate_properties.py`) together with
theorems settling the specification claims about it.

Python strings are modelled as Lean `String` (a list of unicode scalars);
Python `float` arithmetic on match scores is modelled with `ℚ`;
Python exceptions (`ValueError` from `int(...)`) are modelled with
`Except Unit`.  Network calls (`search_tmdb`) are abstracted as an explicit
function argument `search` so all pipeline functions are pure.
-/

namespace Euporious

/-! ## Python string primitives -/

/-- Python `str.strip()` on a list of characters: drop whitespace from both
ends (Python strips a slightly larger whitespace class; all characters
occurring in this corpus are covered by `Char.isWhitespace`). -/
def pyStripL (l : List Char) : List Char :=
  ((l.dropWhile Char.isWhitespace).reverse.dropWhile Char.isWhitespace).reverse

/-- Python `str.strip()`. -/
def pyStrip (s : String) : String := ⟨pyStripL s.data⟩

/-- Python `str.lower()` (ASCII-adequate model via `Char.toLower`). -/
def pyLower (s : String) : String := ⟨s.data.map Char.toLower⟩

/-- Value of a list of decimal digit characters. -/
def digitsVal (l : List Char) : Nat :=
  l.foldl (fun acc c => 10 * acc + (c.toNat - '0'.toNat)) 0

/-- Python `int(s)` on a string: strip whitespace, optional sign, then a
non-empty run of decimal digits; anything else raises `ValueError`
(modelled as `none`).  (Python additionally accepts underscore digit
grouping and non-ASCII digits, which never occur in this corpus.) -/
def pyToInt (s : String) : Option Int :=
  match pyStripL s.data with
  | [] => none
  | '-' :: ds =>
    if ds ≠ [] ∧ ds.all Char.isDigit then some (-(digitsVal ds : Int)) else none
  | '+' :: ds =>
    if ds ≠ [] ∧ ds.all Char.isDigit then some (digitsVal ds : Int) else none
  | ds =>
    if ds.all Char.isDigit then some (digitsVal ds : Int) else none

/-- Python `s.split('-')[0]`: the segment before the first `'-'`
(the whole string when there is none). -/
def beforeDash (s : String) : String := ⟨s.data.takeWhile (fun c => c ≠ '-')⟩

/-- Python `s[:4]`: the first four characters. -/
def takeFirst4 (s : String) : String := ⟨s.data.take 4⟩

/-- Python truthiness of an `Optional[int]`: `None` and `0` are falsy. -/
def pyTruthyInt : Option Int → Bool
  | none => false
  | some n => n != 0

/-! ## `rapidfuzz.fuzz.ratio`

`fuzz.ratio(s1, s2)` is the normalized indel similarity
`100 * (1 - dist/(len1+len2))` where `dist` is the indel (insert/delete)
edit distance, i.e. `len1 + len2 - 2 * lcs(s1, s2)`; two empty strings give
ratio 100. -/

/-- Fuelled longest-common-subsequence length (structural recursion on the
fuel so that it evaluates by kernel reduction). -/
def lcsLenAux : Nat → List Char → List Char → Nat
  | 0, _, _ => 0
  | _ + 1, [], _ => 0
  | _ + 1, _ :: _, [] => 0
  | n + 1, a :: as, b :: bs =>
    if a = b then lcsLenAux n as bs + 1
    else max (lcsLenAux n (a :: as) bs) (lcsLenAux n as (b :: bs))

theorem lcsLenAux_nil_left : ∀ (n : Nat) (b : List Char), lcsLenAux n [] b = 0 := by
  intro n b
  cases n <;> rfl

theorem lcsLenAux_cons_nil : ∀ (n : Nat) (a : Char) (as : List Char),
    lcsLenAux n (a :: as) [] = 0 := by
  intro n a as
  cases n <;> rfl

theorem lcsLenAux_eq : ∀ (n m : Nat) (a b : List Char),
    a.length + b.length ≤ n → a.length + b.length ≤ m →
    lcsLenAux n a b = lcsLenAux m a b := by
  intro n
  induction n with
  | zero =>
    intro m a b hn hm
    have ha : a = [] := by
      cases a with
      | nil => rfl
      | cons x xs => simp at hn
    subst ha
    rw [lcsLenAux_nil_left, lcsLenAux_nil_left]
  | succ n ih =>
    intro m a b hn hm
    cases a with
    | nil => rw [lcsLenAux_nil_left, lcsLenAux_nil_left]
    | cons x xs =>
      cases b with
      | nil => rw [lcsLenAux_cons_nil, lcsLenAux_cons_nil]
      | cons y ys =>
        cases m with
        | zero => simp at hm
        | succ m =>
          simp only [List.length_cons] at hn hm
          simp only [lcsLenAux]
          by_cases hxy : x = y
          · rw [if_pos hxy, if_pos hxy,
              ih m xs ys (by omega) (by omega)]
          · rw [if_neg hxy, if_neg hxy,
              ih m (x :: xs) ys (by simp; omega) (by simp; omega),
              ih m xs (y :: ys) (by simp; omega) (by simp; omega)]

/-- Length of a longest common subsequence of two character lists. -/
def lcsLen (a b : List Char) : Nat := lcsLenAux (a.length + b.length) a b

theorem lcsLen_nil_left (b : List Char) : lcsLen [] b = 0 :=
  lcsLenAux_nil_left _ b

theorem lcsLen_cons_nil (a : Char) (as : List Char) : lcsLen (a :: as) [] = 0 :=
  lcsLenAux_cons_nil _ a as

theorem lcsLen_cons_cons (a b : Char) (as bs : List Char) :
    lcsLen (a :: as) (b :: bs) =
      if a = b then lcsLen as bs + 1
      else max (lcsLen (a :: as) bs) (lcsLen as (b :: bs)) := by
  have h0 : lcsLen (a :: as) (b :: bs)
      = lcsLenAux (as.length + bs.length + 1 + 1) (a :: as) (b :: bs) :=
    lcsLenAux_eq _ _ _ _ (by simp only [List.length_cons]; omega)
      (by simp only [List.length_cons]; omega)
  rw [h0]
  simp only [lcsLenAux]
  by_cases hab : a = b
  · have h1 : lcsLenAux (as.length + bs.length + 1) as bs = lcsLen as bs :=
      lcsLenAux_eq _ _ _ _ (by omega) (by omega)
    rw [if_pos hab, if_pos hab, h1]
  · have h1 : lcsLenAux (as.length + bs.length + 1) (a :: as) bs = lcsLen (a :: as) bs :=
      lcsLenAux_eq _ _ _ _ (by simp only [List.length_cons]; omega)
        (by simp only [List.length_cons]; omega)
    have h2 : lcsLenAux (as.length + bs.length + 1) as (b :: bs) = lcsLen as (b :: bs) :=
      lcsLenAux_eq _ _ _ _ (by simp only [List.length_cons]; omega)
        (by simp only [List.length_cons]; omega)
    rw [if_neg hab, if_neg hab, h1, h2]

/-- The indel edit distance between two character lists. -/
def indelDist (a b : List Char) : Nat := a.length + b.length - 2 * lcsLen a b

/-- `rapidfuzz.fuzz.ratio` as a rational number in `[0, 100]`. -/
def fuzzRatio (s1 s2 : String) : ℚ :=
  if s1.length + s2.length = 0 then 100
  else 100 * (1 - (indelDist s1.data s2.data : ℚ) / (s1.length + s2.length))

theorem lcsLen_le_left : ∀ a b : List Char, lcsLen a b ≤ a.length
  | [], b => by rw [lcsLen_nil_left]; exact Nat.zero_le _
  | _ :: _, [] => by rw [lcsLen_cons_nil]; exact Nat.zero_le _
  | a :: as, b :: bs => by
    rw [lcsLen_cons_cons]
    by_cases hab : a = b
    · have ih := lcsLen_le_left as bs
      rw [if_pos hab]
      simp only [List.length_cons]
      omega
    · have ih1 := lcsLen_le_left (a :: as) bs
      have ih2 := lcsLen_le_left as (b :: bs)
      rw [if_neg hab]
      simp only [List.length_cons] at *
      omega
termination_by a b => a.length + b.length

theorem lcsLen_le_right : ∀ a b : List Char, lcsLen a b ≤ b.length
  | [], b => by rw [lcsLen_nil_left]; exact Nat.zero_le _
  | _ :: _, [] => by rw [lcsLen_cons_nil]; exact Nat.zero_le _
  | a :: as, b :: bs => by
    rw [lcsLen_cons_cons]
    by_cases hab : a = b
    · have ih := lcsLen_le_right as bs
      rw [if_pos hab]
      simp only [List.length_cons]
      omega
    · have ih1 := lcsLen_le_right (a :: as) bs
      have ih2 := lcsLen_le_right as (b :: bs)
      rw [if_neg hab]
      simp only [List.length_cons] at *
      omega
termination_by a b => a.length + b.length

theorem two_lcsLen_le (a b : List Char) :
    2 * lcsLen a b ≤ a.length + b.length := by
  have h1 := lcsLen_le_left a b
  have h2 := lcsLen_le_right a b
  omega

theorem fuzzRatio_le_100 (s1 s2 : String) : fuzzRatio s1 s2 ≤ 100 := by
  unfold fuzzRatio
  split
  · exact le_refl _
  · rename_i h
    have hn : (0 : ℚ) < (s1.length : ℚ) + (s2.length : ℚ) := by
      have h0 : 0 < s1.length + s2.length := Nat.pos_of_ne_zero h
      exact_mod_cast h0
    have hd : (0 : ℚ) ≤ (indelDist s1.data s2.data : ℚ) / ((s1.length : ℚ) + (s2.length : ℚ)) :=
      div_nonneg (by positivity) (le_of_lt hn)
    linarith

theorem fuzzRatio_nonneg (s1 s2 : String) : 0 ≤ fuzzRatio s1 s2 := by
  unfold fuzzRatio
  split
  · norm_num
  · rename_i h
    have hn : (0 : ℚ) < (s1.length : ℚ) + (s2.length : ℚ) := by
      have h0 : 0 < s1.length + s2.length := Nat.pos_of_ne_zero h
      exact_mod_cast h0
    have hd : (indelDist s1.data s2.data : ℚ) ≤ (s1.length : ℚ) + (s2.length : ℚ) := by
      have h2 := two_lcsLen_le s1.data s2.data
      have h1 : indelDist s1.data s2.data ≤ s1.length + s2.length := by
        have hl1 : s1.length = s1.data.length := rfl
        have hl2 : s2.length = s2.data.length := rfl
        unfold indelDist
        omega
      exact_mod_cast h1
    have hq : (indelDist s1.data s2.data : ℚ) / ((s1.length : ℚ) + (s2.length : ℚ)) ≤ 1 := by
      rw [div_le_one hn]
      exact hd
    linarith

/-! ## The match scorers

`calculate_match_score` from `match_movies.py` (lines 101-122), identical in
`enrich_org_tmdb.py` (lines 103-118): fuzzy-compare the query against both
the localized and the original title, take the max, then conditionally add a
year bonus.  The `int(...)` conversion of the release-date prefix can raise
`ValueError`, hence the `Except`. -/

/-- The year-bonus stage of `calculate_match_score`: the body of
`if year_hint and tmdb_year:` applied to an already-computed base score. -/
def yearBonusStep (base : ℚ) (year_hint : Option Int) (tmdb_year : Option String) :
    Except Unit ℚ :=
  match year_hint, tmdb_year with
  | some y, some t =>
    if y ≠ 0 ∧ t ≠ "" then
      match pyToInt (beforeDash t) with
      | none => Except.error ()
      | some r =>
        if r = y then Except.ok (min 100 (base + 10))
        else if (r - y).natAbs ≤ 1 then Except.ok (min 100 (base + 5))
        else Except.ok base
    else Except.ok base
  | some _, none => Except.ok base
  | none, some _ => Except.ok base
  | none, none => Except.ok base

/-- The base title-similarity score: max of the two fuzzy ratios of the
lowercased query against the lowercased localized and original titles. -/
def baseScore (original tmdb_title tmdb_original_title : String) : ℚ :=
  max (fuzzRatio (pyLower original) (pyLower tmdb_title))
      (fuzzRatio (pyLower original) (pyLower tmdb_original_title))

/-- `calculate_match_score` (`match_movies.py` 101-122 / `enrich_org_tmdb.py`
103-118). -/
def calculate_match_score (original tmdb_title tmdb_original_title : String)
    (year_hint : Option Int) (tmdb_year : Option String) : Except Unit ℚ :=
  yearBonusStep (baseScore original tmdb_title tmdb_original_title) year_hint tmdb_year

/-- The year-bonus computation of `calculate_confidence`
(`update_tmdb_from_suggested.py` 96-106): bonuses 20 / 10, release year from
the first four characters of the date, `ValueError` caught (bonus 0). -/
def yearBonus20 (year_hint : Option Int) (tmdb_year : String) : ℚ :=
  match year_hint with
  | some y =>
    if y ≠ 0 ∧ tmdb_year ≠ "" then
      match pyToInt (takeFirst4 tmdb_year) with
      | none => 0
      | some r => if r = y then 20 else if (r - y).natAbs ≤ 1 then 10 else 0
    else 0
  | none => 0

/-- `calculate_confidence` (`update_tmdb_from_suggested.py` 91-108).  The
`original` (heading) argument is unused, as in the source; only the
suggested search string is compared, against the localized title alone. -/
def calculate_confidence (original suggested tmdb_title : String)
    (year_hint : Option Int) (tmdb_year : String) : ℚ :=
  min 100 (fuzzRatio (pyLower suggested) (pyLower tmdb_title) + yearBonus20 year_hint tmdb_year)

set_option maxRecDepth 4000

theorem baseScore_le_100 (o t ot : String) : baseScore o t ot ≤ 100 :=
  max_le (fuzzRatio_le_100 _ _) (fuzzRatio_le_100 _ _)

/-! ## Claim-side (spec-worded) score definitions

`specScoreC1` follows the words of claim C1: maximum of the two ratios plus
a year-agreement bonus of 10 on exact equality of the year hint with the
candidate release year, 5 on a difference of exactly 1, 0 otherwise, capped
at 100.  It is compared against the source-derived scorers. -/

/-- The candidate's release year as the claims read it: the integer before
the first dash of the release-date string. -/
def specReleaseYear (tmdb_year : Option String) : Option Int :=
  tmdb_year.bind (fun t => pyToInt (beforeDash t))

/-- The year bonus exactly as claim C1 words it. -/
def specYearBonusC1 (year_hint : Option Int) (tmdb_year : Option String) : ℚ :=
  match year_hint, specReleaseYear tmdb_year with
  | some y, some r => if y = r then 10 else if (r - y).natAbs = 1 then 5 else 0
  | _, _ => 0

/-- The per-candidate score exactly as claim C1 words it. -/
def specScoreC1 (q localized original : String)
    (year_hint : Option Int) (tmdb_year : Option String) : ℚ :=
  min 100 (baseScore q localized original + specYearBonusC1 year_hint tmdb_year)

/-- The year bonus of `calculate_match_score` as a total function (the
amended claim): applied only when the year hint is present and nonzero
(Python truthiness) and the release-date string is non-empty; 10 on exact
release-year agreement, 5 on a difference of exactly 1, otherwise 0 (also 0
when the release-year prefix does not parse, in which case the scorer
actually raises). -/
def amendedYearBonus (year_hint : Option Int) (tmdb_year : Option String) : ℚ :=
  match year_hint, tmdb_year with
  | some y, some t =>
    if y ≠ 0 ∧ t ≠ "" then
      match pyToInt (beforeDash t) with
      | some r => if r = y then 10 else if (r - y).natAbs = 1 then 5 else 0
      | none => 0
    else 0
  | some _, none => 0
  | none, some _ => 0
  | none, none => 0

theorem yearBonusStep_ok_eq (base : ℚ) (yh : Option Int) (ty : Option String) (v : ℚ)
    (hb : base ≤ 100) (h : yearBonusStep base yh ty = Except.ok v) :
    v = min 100 (base + amendedYearBonus yh ty) := by
  cases yh with
  | none =>
    cases ty with
    | none =>
      simp only [yearBonusStep, Except.ok.injEq] at h
      subst h
      simp only [amendedYearBonus]
      rw [add_zero, min_eq_right hb]
    | some t =>
      simp only [yearBonusStep, Except.ok.injEq] at h
      subst h
      simp only [amendedYearBonus]
      rw [add_zero, min_eq_right hb]
  | some y =>
    cases ty with
    | none =>
      simp only [yearBonusStep, Except.ok.injEq] at h
      subst h
      simp only [amendedYearBonus]
      rw [add_zero, min_eq_right hb]
    | some t =>
      simp only [yearBonusStep] at h
      simp only [amendedYearBonus]
      by_cases hc : y ≠ 0 ∧ t ≠ ""
      · rw [if_pos hc] at h ⊢
        cases hp : pyToInt (beforeDash t) with
        | none =>
          rw [hp] at h
          exact absurd h (by simp)
        | some r =>
          rw [hp] at h
          dsimp only at h ⊢
          by_cases h1 : r = y
          · rw [if_pos h1] at h ⊢
            simp only [Except.ok.injEq] at h
            exact h.symm
          · rw [if_neg h1] at h ⊢
            by_cases h2 : (r - y).natAbs ≤ 1
            · rw [if_pos h2] at h
              have h3 : (r - y).natAbs = 1 := by omega
              rw [if_pos h3]
              simp only [Except.ok.injEq] at h
              exact h.symm
            · rw [if_neg h2] at h
              have h3 : ¬ (r - y).natAbs = 1 := by omega
              rw [if_neg h3]
              simp only [Except.ok.injEq] at h
              subst h
              rw [add_zero, min_eq_right hb]
      · rw [if_neg hc] at h ⊢
        simp only [Except.ok.injEq] at h
        subst h
        rw [add_zero, min_eq_right hb]

/-- Any `ok` result of `calculate_match_score` is exactly the capped sum of
the base similarity score and the (amended) year bonus. -/
theorem calculate_match_score_ok_eq (o lt ot : String) (yh : Option Int)
    (ty : Option String) (v : ℚ) (h : calculate_match_score o lt ot yh ty = Except.ok v) :
    v = min 100 (baseScore o lt ot + amendedYearBonus yh ty) :=
  yearBonusStep_ok_eq _ _ _ _ (baseScore_le_100 o lt ot) h

instance {e a : Type} [DecidableEq e] [DecidableEq a] : DecidableEq (Except e a) :=
  fun x y =>
    match x, y with
    | Except.ok u, Except.ok v =>
      if h : u = v then isTrue (by rw [h]) else isFalse (fun hc => by cases hc; exact h rfl)
    | Except.ok _, Except.error _ => isFalse (fun hc => by cases hc)
    | Except.error _, Except.ok _ => isFalse (fun hc => by cases hc)
    | Except.error u, Except.error v =>
      if h : u = v then isTrue (by rw [h]) else isFalse (fun hc => by cases hc; exact h rfl)

/-- Monotonicity of the year-bonus stage in the base score, holding the year
data (hence the bonus branch) fixed. -/
theorem yearBonusStep_mono (b1 b2 : ℚ) (yh : Option Int) (ty : Option String)
    (v1 v2 : ℚ) (hb : b1 ≤ b2)
    (h1 : yearBonusStep b1 yh ty = Except.ok v1)
    (h2 : yearBonusStep b2 yh ty = Except.ok v2) : v1 ≤ v2 := by
  cases yh with
  | none =>
    cases ty with
    | none =>
      simp only [yearBonusStep, Except.ok.injEq] at h1 h2
      subst h1; subst h2; exact hb
    | some t =>
      simp only [yearBonusStep, Except.ok.injEq] at h1 h2
      subst h1; subst h2; exact hb
  | some y =>
    cases ty with
    | none =>
      simp only [yearBonusStep, Except.ok.injEq] at h1 h2
      subst h1; subst h2; exact hb
    | some t =>
      simp only [yearBonusStep] at h1 h2
      by_cases hc : y ≠ 0 ∧ t ≠ ""
      · rw [if_pos hc] at h1 h2
        cases hp : pyToInt (beforeDash t) with
        | none =>
          rw [hp] at h1
          exact absurd h1 (by simp)
        | some r =>
          rw [hp] at h1 h2
          dsimp only at h1 h2
          by_cases hr1 : r = y
          · rw [if_pos hr1] at h1 h2
            simp only [Except.ok.injEq] at h1 h2
            subst h1; subst h2
            exact min_le_min (le_refl _) (by linarith)
          · rw [if_neg hr1] at h1 h2
            by_cases hr2 : (r - y).natAbs ≤ 1
            · rw [if_pos hr2] at h1 h2
              simp only [Except.ok.injEq] at h1 h2
              subst h1; subst h2
              exact min_le_min (le_refl _) (by linarith)
            · rw [if_neg hr2] at h1 h2
              simp only [Except.ok.injEq] at h1 h2
              subst h1; subst h2; exact hb
      · rw [if_neg hc] at h1 h2
        simp only [Except.ok.injEq] at h1 h2
        subst h1; subst h2; exact hb

/-- The 20/10 year bonus of `calculate_confidence`, worded as the amended
claim does (a difference of exactly one year). -/
def specYearBonus2010 (year_hint : Option Int) (tmdb_year : String) : ℚ :=
  match year_hint with
  | some y =>
    if y ≠ 0 ∧ tmdb_year ≠ "" then
      match pyToInt (takeFirst4 tmdb_year) with
      | some r => if r = y then 20 else if (r - y).natAbs = 1 then 10 else 0
      | none => 0
    else 0
  | none => 0

theorem yearBonus20_eq_spec (yh : Option Int) (ty : String) :
    yearBonus20 yh ty = specYearBonus2010 yh ty := by
  cases yh with
  | none => rfl
  | some y =>
    simp only [yearBonus20, specYearBonus2010]
    by_cases hc : y ≠ 0 ∧ ty ≠ ""
    · rw [if_pos hc, if_pos hc]
      cases hp : pyToInt (takeFirst4 ty) with
      | none => rfl
      | some r =>
        dsimp only
        by_cases hr1 : r = y
        · rw [if_pos hr1, if_pos hr1]
        · rw [if_neg hr1, if_neg hr1]
          by_cases hr2 : (r - y).natAbs ≤ 1
          · rw [if_pos hr2, if_pos (show (r - y).natAbs = 1 by omega)]
          · rw [if_neg hr2, if_neg (show ¬ (r - y).natAbs = 1 by omega)]
    · rw [if_neg hc, if_neg hc]

/-! ## The Title Normalizer

`parse_org_title` (`enrich_org_tmdb.py` 49-78), identical in logic to
`parse_org_entry` (`match_movies.py` 27-70): match the heading against
`^\*\s+(.+)$` on the stripped line, extract the first 4-digit run as a year
hint when it lies in [1920, 2025], and clean the title by removing
parenthesized segments, quote-like characters, one trailing `_`/`/`
decoration, and whitespace runs. -/

/-- The acute-accent quote-like character removed by the normalizer. -/
def acuteChar : Char := Char.ofNat 180

/-- The ASCII apostrophe removed by the normalizer. -/
def aposChar : Char := Char.ofNat 39

/-- Python `re.search(r"[´']?(\d{4})", s)`, group 1: the first run of four
consecutive decimal digits (an optional preceding quote character does not
change the captured group). -/
def firstFourDigits : List Char → Option Nat
  | c1 :: c2 :: c3 :: c4 :: rest =>
    if c1.isDigit && c2.isDigit && c3.isDigit && c4.isDigit then
      some (digitsVal [c1, c2, c3, c4])
    else firstFourDigits (c2 :: c3 :: c4 :: rest)
  | _ => none

/-- Python `re.sub(r'\([^)]*\)', '', s)`: delete every `(`-to-next-`)`
segment; an unmatched `(` (no later `)`) is kept with its content.  The
second argument buffers a pending open segment (in reverse). -/
def removeParensAux : List Char → Option (List Char) → List Char
  | [], none => []
  | [], some buf => buf.reverse
  | c :: rest, none =>
    if c = '(' then removeParensAux rest (some [c])
    else c :: removeParensAux rest none
  | c :: rest, some buf =>
    if c = ')' then removeParensAux rest none
    else removeParensAux rest (some (c :: buf))

/-- Python `re.sub(r'\([^)]*\)', '', s)`. -/
def removeParens (l : List Char) : List Char := removeParensAux l none

/-- Python `re.sub(r"[´']", '', s)`. -/
def removeQuotes (l : List Char) : List Char :=
  l.filter (fun c => ¬ (c = acuteChar ∨ c = aposChar))

/-- Python `re.sub(r'[_/]\s*$', '', s)`: if the last non-whitespace
character is `_` or `/`, remove it together with the trailing whitespace. -/
def removeTrailingDeco (l : List Char) : List Char :=
  match l.reverse.dropWhile Char.isWhitespace with
  | [] => l
  | c :: rest => if c = '_' ∨ c = '/' then rest.reverse else l

/-- Python `re.sub(r'\s+', ' ', s)`: collapse every whitespace run into a
single space (the flag records whether the previous character was
whitespace). -/
def squashWsAux : Bool → List Char → List Char
  | _, [] => []
  | prevWs, c :: rest =>
    if c.isWhitespace then
      if prevWs then squashWsAux true rest else ' ' :: squashWsAux true rest
    else c :: squashWsAux false rest

/-- Python `re.sub(r'\s+', ' ', s)`. -/
def squashWs (l : List Char) : List Char := squashWsAux false l

/-- The year-hint extraction of the normalizer: the first 4-digit run,
accepted only within [1920, 2025]. -/
def yearFromTitle (full : List Char) : Option Int :=
  match firstFourDigits full with
  | some v => if 1920 ≤ v ∧ v ≤ 2025 then some (v : Int) else none
  | none => none

/-- The cleaned-title pipeline of the normalizer, in source order. -/
def cleanedTitle (full : List Char) : List Char :=
  pyStripL (squashWs (removeTrailingDeco (removeQuotes (pyStripL (removeParens full)))))

/-- The heading guard `re.match(r'^\*\s+(.+)$', line.strip())`: a `*`,
at least one whitespace character, then a non-empty remainder (the stripped
group 1). -/
def headingTitle (line : String) : Option (List Char) :=
  match pyStripL line.data with
  | [] => none
  | c0 :: rest =>
    if c0 = '*' then
      match rest with
      | [] => none
      | c1 :: _ =>
        if c1.isWhitespace then
          match rest.dropWhile Char.isWhitespace with
          | [] => none
          | g1 => some (pyStripL g1)
        else none
    else none

/-- `parse_org_title` (`enrich_org_tmdb.py` 49-78): returns
`(original_title, cleaned_title, year_hint)`. -/
def parse_org_title (line : String) : Option (String × String × Option Int) :=
  (headingTitle line).map (fun full => (⟨full⟩, ⟨cleanedTitle full⟩, yearFromTitle full))

/-- The claims' notion of a 4-digit token: some four consecutive digit
characters of the text with the given value. -/
def isFourDigitSub (l : List Char) (v : Nat) : Prop :=
  ∃ pre ds post, l = pre ++ ds ++ post ∧ ds.length = 4 ∧ (∀ c ∈ ds, c.isDigit) ∧ digitsVal ds = v

theorem firstFourDigits_isSub : ∀ (l : List Char) (v : Nat),
    firstFourDigits l = some v → isFourDigitSub l v := by
  intro l
  induction l with
  | nil => intro v h; exact absurd h (by simp [firstFourDigits])
  | cons c1 t ih =>
    intro v h
    match t with
    | [] => exact absurd h (by simp [firstFourDigits])
    | [c2] => exact absurd h (by simp [firstFourDigits])
    | [c2, c3] => exact absurd h (by simp [firstFourDigits])
    | c2 :: c3 :: c4 :: rest =>
      rw [firstFourDigits] at h
      by_cases hd : c1.isDigit && c2.isDigit && c3.isDigit && c4.isDigit
      · rw [if_pos hd] at h
        simp only [Option.some.injEq] at h
        refine ⟨[], [c1, c2, c3, c4], rest, by simp, by simp, ?_, h⟩
        intro c hc
        simp only [List.mem_cons, List.not_mem_nil, or_false] at hc
        simp only [Bool.and_eq_true] at hd
        rcases hc with h1 | h1 | h1 | h1 <;> subst h1
        · exact hd.1.1.1
        · exact hd.1.1.2
        · exact hd.1.2
        · exact hd.2
      · rw [if_neg hd] at h
        obtain ⟨pre, ds, post, heq, hlen, hdig, hval⟩ := ih v h
        exact ⟨c1 :: pre, ds, post, by simp [heq], hlen, hdig, hval⟩

theorem parse_org_title_shape (line : String) (o c : String) (y : Option Int)
    (h : parse_org_title line = some (o, c, y)) :
    headingTitle line = some o.data ∧ c.data = cleanedTitle o.data ∧ y = yearFromTitle o.data := by
  unfold parse_org_title at h
  rw [Option.map_eq_some'] at h
  obtain ⟨full, hft, heq⟩ := h
  have ho : o = ⟨full⟩ := by
    have := congrArg Prod.fst heq
    simpa using this.symm
  have hc : c = ⟨cleanedTitle full⟩ := by
    have := congrArg (fun p => p.2.1) heq
    simpa using this.symm
  have hy : y = yearFromTitle full := by
    have := congrArg (fun p => p.2.2) heq
    simpa using this.symm
  subst ho
  exact ⟨hft, by rw [hc], hy⟩

/-! ## Claim C7 -/

/-- Claim C7 as frozen is false on the code: the heading
"* Foo 1003 1964" contains the 4-digit token 1964 within [1920, 2025], yet
the normalizer returns no year hint, because only the first 4-digit run
(1003, out of range) is examined. -/
theorem claim_C7_counterexample :
    isFourDigitSub "Foo 1003 1964".data 1964 ∧ (1920 ≤ 1964 ∧ 1964 ≤ 2025) ∧
    parse_org_title "* Foo 1003 1964" = some ("Foo 1003 1964", "Foo 1003 1964", none) ∧
    (∀ o c, parse_org_title "* Foo 1003 1964" = some (o, c, some 1964) → False) := by
  refine ⟨⟨"Foo 1003 ".data, "1964".data, [], by decide, by decide, by decide, by decide⟩,
    ⟨by norm_num, by norm_num⟩, by decide, ?_⟩
  intro o c h
  have h2 : parse_org_title "* Foo 1003 1964" = some ("Foo 1003 1964", "Foo 1003 1964", none) := by
    decide
  rw [h2] at h
  simp at h

/-- Claim C7 (amended): the normalizer examines only the first (leftmost)
run of four consecutive digits of the heading title: if that run's value
lies in [1920, 2025] it is the year hint; if every 4-digit token of the
title is outside [1920, 2025] there is no year hint; the example heading
"* Film Title (´1964_/Trailer)" yields cleaned title "Film Title" and year
1964. -/
theorem claim_C7_amended :
    (∀ (line o c : String) (y : Option Int) (v : Nat),
      parse_org_title line = some (o, c, y) →
      firstFourDigits o.data = some v → 1920 ≤ v → v ≤ 2025 → y = some (v : Int)) ∧
    (∀ (line o c : String) (y : Option Int),
      parse_org_title line = some (o, c, y) →
      (∀ v, isFourDigitSub o.data v → ¬ (1920 ≤ v ∧ v ≤ 2025)) → y = none) ∧
    parse_org_title "* Film Title (´1964_/Trailer)"
      = some ("Film Title (´1964_/Trailer)", "Film Title", some 1964) := by
  refine ⟨?_, ?_, by decide⟩
  · intro line o c y v hp hf h1 h2
    have hs := (parse_org_title_shape line o c y hp).2.2
    rw [hs]
    unfold yearFromTitle
    rw [hf]
    dsimp only
    rw [if_pos ⟨h1, h2⟩]
  · intro line o c y hp hall
    have hs := (parse_org_title_shape line o c y hp).2.2
    rw [hs]
    unfold yearFromTitle
    cases hf : firstFourDigits o.data with
    | none => rfl
    | some v =>
      have hsub := firstFourDigits_isSub o.data v hf
      dsimp only
      rw [if_neg (hall v hsub)]

/-- Witness for `claim_C7_amended` at concrete inputs. -/
theorem claim_C7_witness :
    (some (1964 : Int) = some (1964 : Int)) ∧ ((none : Option Int) = none) :=
  ⟨claim_C7_amended.1 "* Foo (1964)" "Foo (1964)" "Foo" (some 1964) 1964
      (by decide) (by decide) (by norm_num) (by norm_num),
    claim_C7_amended.2.1 "* Foo" "Foo" "Foo" none (by decide)
      (fun v hsub => by
        intro hrange
        obtain ⟨pre, ds, post, heq, hlen, _, _⟩ := hsub
        have hlen2 := congrArg List.length heq
        simp only [List.length_append] at hlen2
        rw [hlen] at hlen2
        rw [show List.length ("Foo".data) = 3 from rfl] at hlen2
        omega)⟩

/-! ## Candidate selection (`find_best_match`)

`find_best_match` (`enrich_org_tmdb.py` 121-168, identical in
`match_movies.py` 125-184): score the top 10 results, sort the scored list
descending by score (Python `list.sort(reverse=True)` is stable), and build
the match info from the head.  The network `search_tmdb` is passed in as a
function; an empty result list with a truthy year hint triggers one retry
without the year. -/

/-- One TMDB search result, with the fields the scripts read via
`result.get(...)` (absent keys give `None`). -/
structure Cand where
  id : Option Int
  title : Option String
  original_title : Option String
  release_date : Option String
deriving DecidableEq

/-- The dictionary built by `find_best_match` (the CSV-only `year`/`genres`
fields of the `match_movies.py` variant are omitted). -/
structure MatchInfo where
  tmdb_id : Option Int
  confidence : ℚ
  tmdb_title : Option String
  tmdb_original_title : Option String
  needs_review : Bool
  match_status : String
deriving DecidableEq

/-- Python `round` to the nearest integer, ties to even (banker's
rounding), on the idealized rational value. -/
def bankRound (q : ℚ) : Int :=
  let f := q.floor
  if q - f < 1 / 2 then f
  else if (1 : ℚ) / 2 < q - f then f + 1
  else if Even f then f else f + 1

/-- Python `round(x, 2)`. -/
def round2 (q : ℚ) : ℚ := (bankRound (q * 100) : ℚ) / 100

/-- The per-result scoring call of `find_best_match`. -/
def scoreCand (query : String) (year_hint : Option Int) (r : Cand) : Except Unit ℚ :=
  calculate_match_score query (r.title.getD "") (r.original_title.getD "")
    year_hint r.release_date

/-- The dictionary returned for an empty result list
(`match_status = 'NO_RESULTS'`). -/
def noResultsInfo : MatchInfo :=
  { tmdb_id := none, confidence := 0, tmdb_title := none,
    tmdb_original_title := none, needs_review := true,
    match_status := "NO_RESULTS" }

/-- The dictionary built from the best scored result (`enrich_org_tmdb.py`
156-168). -/
def buildMatchInfo (best_score : ℚ) (best : Cand) : MatchInfo :=
  { tmdb_id := best.id
    confidence := round2 best_score
    tmdb_title := best.title
    tmdb_original_title := best.original_title
    needs_review := decide (best_score < 85)
    match_status :=
      if 85 ≤ best_score then "HIGH_CONFIDENCE"
      else if 70 ≤ best_score then "MEDIUM_CONFIDENCE"
      else "LOW_CONFIDENCE" }

/-- The scoring loop over the result list: first raised exception
propagates, as in Python. -/
def mapMExcept (f : α → Except Unit β) : List α → Except Unit (List β)
  | [] => Except.ok []
  | x :: xs =>
    match f x with
    | Except.error e => Except.error e
    | Except.ok y =>
      match mapMExcept f xs with
      | Except.error e => Except.error e
      | Except.ok ys => Except.ok (y :: ys)

/-- Stable insertion for a descending sort: the earlier element `x` is
placed before the first later element whose score does not exceed it.  This
realizes Python `list.sort(reverse=True)` (Timsort is stable; `reverse`
keeps equal elements in original order). -/
def insertDescFirst (x : ℚ × Cand) : List (ℚ × Cand) → List (ℚ × Cand)
  | [] => [x]
  | y :: ys => if y.1 ≤ x.1 then x :: y :: ys else y :: insertDescFirst x ys

/-- Stable descending sort by score. -/
def sortDesc : List (ℚ × Cand) → List (ℚ × Cand)
  | [] => []
  | x :: xs => insertDescFirst x (sortDesc xs)

/-- A default scored pair for `headD` (never used: the scored list is
non-empty whenever it is read). -/
def dfltScored : ℚ × Cand := (0, { id := none, title := none, original_title := none, release_date := none })

/-- `find_best_match` (`enrich_org_tmdb.py` 121-168) over an abstract
`search` function. -/
def find_best_match (search : String → Option Int → List Cand)
    (cleaned_title : String) (year_hint : Option Int) : Except Unit MatchInfo :=
  let results0 := search cleaned_title year_hint
  let results :=
    if results0 = [] ∧ pyTruthyInt year_hint = true
    then search cleaned_title none else results0
  if results = [] then Except.ok noResultsInfo
  else
    match mapMExcept
        (fun r => (scoreCand cleaned_title year_hint r).map (fun sc => (sc, r)))
        (results.take 10) with
    | Except.error e => Except.error e
    | Except.ok scored =>
      let best := (sortDesc scored).headD dfltScored
      Except.ok (buildMatchInfo best.1 best.2)

/-- The first element of maximal score, in original order. -/
def firstArgmax : List (ℚ × Cand) → Option (ℚ × Cand)
  | [] => none
  | x :: xs =>
    match firstArgmax xs with
    | none => some x
    | some m => if m.1 ≤ x.1 then some x else some m

/-- The maximum of a list of scores. -/
def listMaxOf : List ℚ → Option ℚ
  | [] => none
  | a :: as =>
    match listMaxOf as with
    | none => some a
    | some m => some (max a m)

theorem insertDescFirst_ne_nil (x : ℚ × Cand) (l : List (ℚ × Cand)) :
    insertDescFirst x l ≠ [] := by
  cases l with
  | nil => simp [insertDescFirst]
  | cons y ys =>
    unfold insertDescFirst
    by_cases h : y.1 ≤ x.1
    · rw [if_pos h]; simp
    · rw [if_neg h]; simp

theorem firstArgmax_eq_none (l : List (ℚ × Cand)) :
    firstArgmax l = none ↔ l = [] := by
  cases l with
  | nil => simp [firstArgmax]
  | cons x xs =>
    simp only [firstArgmax]
    cases firstArgmax xs with
    | none => simp
    | some m =>
      dsimp only
      by_cases h : m.1 ≤ x.1
      · rw [if_pos h]; simp
      · rw [if_neg h]; simp

theorem head?_insertDescFirst_cons (x y : ℚ × Cand) (ys : List (ℚ × Cand)) :
    (insertDescFirst x (y :: ys)).head? = some (if y.1 ≤ x.1 then x else y) := by
  unfold insertDescFirst
  by_cases h : y.1 ≤ x.1
  · rw [if_pos h, if_pos h]; rfl
  · rw [if_neg h, if_neg h]; rfl

theorem sortDesc_head? : ∀ l : List (ℚ × Cand), (sortDesc l).head? = firstArgmax l := by
  intro l
  induction l with
  | nil => rfl
  | cons x xs ih =>
    show (insertDescFirst x (sortDesc xs)).head? = firstArgmax (x :: xs)
    cases hs : sortDesc xs with
    | nil =>
      have hxs : firstArgmax xs = none := by
        rw [← ih, hs]; rfl
      simp only [firstArgmax, hxs, insertDescFirst]
      rfl
    | cons h t =>
      have ih2 : some h = firstArgmax xs := by rw [← ih, hs]; rfl
      rw [head?_insertDescFirst_cons]
      simp only [firstArgmax, ← ih2]
      by_cases hc : h.1 ≤ x.1
      · rw [if_pos hc, if_pos hc]
      · rw [if_neg hc, if_neg hc]

theorem headD_of_head? {α : Type} (l : List α) (d p : α) (h : l.head? = some p) :
    l.headD d = p := by
  cases l with
  | nil => simp at h
  | cons x xs =>
    simp only [List.head?_cons, Option.some.injEq] at h
    simp [List.headD, h]

theorem firstArgmax_spec : ∀ (l : List (ℚ × Cand)) (p : ℚ × Cand),
    firstArgmax l = some p →
    p ∈ l ∧ (∀ q ∈ l, q.1 ≤ p.1) ∧
    ∃ i, ∃ hi : i < l.length, l.get ⟨i, hi⟩ = p ∧
      ∀ j, ∀ hj : j < l.length, j < i → (l.get ⟨j, hj⟩).1 < p.1 := by
  intro l
  induction l with
  | nil => intro p h; exact absurd h (by simp [firstArgmax])
  | cons x xs ih =>
    intro p h
    simp only [firstArgmax] at h
    cases hfa : firstArgmax xs with
    | none =>
      rw [hfa] at h
      dsimp only at h
      simp only [Option.some.injEq] at h
      subst h
      have hxs : xs = [] := (firstArgmax_eq_none xs).mp hfa
      subst hxs
      refine ⟨by simp, by simp, 0, by simp, rfl, ?_⟩
      intro j hj hj0
      omega
    | some m =>
      rw [hfa] at h
      dsimp only at h
      obtain ⟨hmem, hub, i, hi, hget, hfirst⟩ := ih m hfa
      by_cases hle : m.1 ≤ p.1 ∧ m.1 ≤ x.1
      case pos =>
        rw [if_pos hle.2] at h
        simp only [Option.some.injEq] at h
        subst h
        refine ⟨by simp, ?_, 0, by simp, rfl, ?_⟩
        · intro q hq
          rcases List.mem_cons.mp hq with h1 | h1
          · subst h1; exact le_refl _
          · exact le_trans (hub q h1) hle.2
        · intro j hj hj0
          omega
      case neg =>
        by_cases hmx : m.1 ≤ x.1
        · rw [if_pos hmx] at h
          simp only [Option.some.injEq] at h
          subst h
          refine ⟨by simp, ?_, 0, by simp, rfl, ?_⟩
          · intro q hq
            rcases List.mem_cons.mp hq with h1 | h1
            · subst h1; exact le_refl _
            · exact le_trans (hub q h1) hmx
          · intro j hj hj0
            omega
        · rw [if_neg hmx] at h
          simp only [Option.some.injEq] at h
          subst h
          push_neg at hmx
          refine ⟨List.mem_cons_of_mem x hmem, ?_, i + 1, by simpa using Nat.succ_lt_succ hi, ?_, ?_⟩
          · intro q hq
            rcases List.mem_cons.mp hq with h1 | h1
            · subst h1; exact le_of_lt hmx
            · exact hub q h1
          · simpa using hget
          · intro j hj hj0
            cases j with
            | zero => simpa using hmx
            | succ j =>
              have hj2 : j < xs.length := by simpa using hj
              have := hfirst j hj2 (by omega)
              simpa using this

theorem listMaxOf_spec : ∀ (l : List ℚ) (bs : ℚ), listMaxOf l = some bs →
    bs ∈ l ∧ ∀ x ∈ l, x ≤ bs := by
  intro l
  induction l with
  | nil => intro bs h; exact absurd h (by simp [listMaxOf])
  | cons a as ih =>
    intro bs h
    simp only [listMaxOf] at h
    cases hm : listMaxOf as with
    | none =>
      rw [hm] at h
      dsimp only at h
      simp only [Option.some.injEq] at h
      subst h
      have has : as = [] := by
        cases as with
        | nil => rfl
        | cons b bs2 =>
          simp only [listMaxOf] at hm
          cases hmm : listMaxOf bs2 with
          | none => rw [hmm] at hm; exact absurd hm (by simp)
          | some mm => rw [hmm] at hm; exact absurd hm (by simp)
      subst has
      exact ⟨by simp, by simp⟩
    | some m =>
      rw [hm] at h
      dsimp only at h
      simp only [Option.some.injEq] at h
      obtain ⟨hmem, hub⟩ := ih m hm
      subst h
      constructor
      · rcases le_total a m with h1 | h1
        · rw [max_eq_right h1]
          exact List.mem_cons_of_mem a hmem
        · rw [max_eq_left h1]
          simp
      · intro x hx
        rcases List.mem_cons.mp hx with h1 | h1
        · subst h1; exact le_max_left _ _
        · exact le_trans (hub x h1) (le_max_right _ _)

theorem mapMExcept_length {α β : Type} (f : α → Except Unit β) :
    ∀ (l : List α) (ys : List β), mapMExcept f l = Except.ok ys → ys.length = l.length := by
  intro l
  induction l with
  | nil =>
    intro ys h
    simp only [mapMExcept, Except.ok.injEq] at h
    subst h; rfl
  | cons x xs ih =>
    intro ys h
    simp only [mapMExcept] at h
    cases hf : f x with
    | error e => rw [hf] at h; exact absurd h (by simp)
    | ok y =>
      rw [hf] at h
      cases hr : mapMExcept f xs with
      | error e => rw [hr] at h; exact absurd h (by simp)
      | ok ys2 =>
        rw [hr] at h
        simp only [Except.ok.injEq] at h
        subst h
        simp [ih ys2 hr]

theorem mapMExcept_pair (f : Cand → Except Unit ℚ) :
    ∀ (cs : List Cand) (qs : List ℚ), mapMExcept f cs = Except.ok qs →
    mapMExcept (fun r => (f r).map (fun sc => (sc, r))) cs = Except.ok (qs.zip cs) := by
  intro cs
  induction cs with
  | nil =>
    intro qs h
    simp only [mapMExcept, Except.ok.injEq] at h
    subst h; rfl
  | cons x xs ih =>
    intro qs h
    simp only [mapMExcept] at h ⊢
    cases hf : f x with
    | error e => rw [hf] at h; exact absurd h (by simp)
    | ok y =>
      rw [hf] at h
      cases hr : mapMExcept f xs with
      | error e => rw [hr] at h; exact absurd h (by simp)
      | ok ys2 =>
        rw [hr] at h
        simp only [Except.ok.injEq] at h
        subst h
        rw [ih ys2 hr]
        simp [Except.map, List.zip]

/-- Shape of a successful `find_best_match` run over a stubbed search that
returns the fixed candidate list `cs`: the result is built from the first
scored pair of maximal score. -/
theorem find_best_match_ok_shape (cs : List Cand) (q : String) (yh : Option Int)
    (qs : List ℚ) (m : MatchInfo)
    (hne : cs ≠ []) (hlen : cs.length ≤ 10)
    (hqs : mapMExcept (scoreCand q yh) cs = Except.ok qs)
    (hm : find_best_match (fun _ _ => cs) q yh = Except.ok m) :
    ∃ p, firstArgmax (qs.zip cs) = some p ∧ m = buildMatchInfo p.1 p.2 := by
  unfold find_best_match at hm
  simp only [ite_self] at hm
  rw [if_neg hne] at hm
  rw [List.take_of_length_le hlen] at hm
  rw [mapMExcept_pair (scoreCand q yh) cs qs hqs] at hm
  dsimp only at hm
  have hql : qs.length = cs.length := mapMExcept_length _ cs qs hqs
  have hzne : qs.zip cs ≠ [] := by
    intro hz
    have := congrArg List.length hz
    rw [List.length_zip] at this
    simp only [List.length_nil] at this
    rw [hql, min_self] at this
    exact hne (List.length_eq_zero.mp this)
  cases hfa : firstArgmax (qs.zip cs) with
  | none => exact absurd ((firstArgmax_eq_none _).mp hfa) hzne
  | some p =>
    refine ⟨p, rfl, ?_⟩
    have hh : (sortDesc (qs.zip cs)).head? = some p := by
      rw [sortDesc_head?, hfa]
    rw [headD_of_head? _ dfltScored p hh] at hm
    simp only [Except.ok.injEq] at hm
    exact hm.symm

/-! ## Claims C2 and C8 -/

/-- Claim C2: over a stubbed lookup returning the fixed candidate list, an
empty list yields `NO_RESULTS` (the spec tier NONE) with `needsReview` and
no identifier, without raising; a non-empty list (of at most the 10
candidates the scorer examines) yields `HIGH_CONFIDENCE` iff the best score
is at least 85, `MEDIUM_CONFIDENCE` iff it is in [70, 85), `LOW_CONFIDENCE`
iff below 70, and `needs_review` holds exactly when the tier is not
`HIGH_CONFIDENCE`. -/
theorem claim_C2 :
    (∀ (q : String) (yh : Option Int),
      find_best_match (fun _ _ => ([] : List Cand)) q yh = Except.ok noResultsInfo) ∧
    noResultsInfo.tmdb_id = none ∧ noResultsInfo.needs_review = true ∧
    noResultsInfo.match_status = "NO_RESULTS" ∧
    (∀ (q : String) (yh : Option Int) (cs : List Cand) (qs : List ℚ) (m : MatchInfo) (bs : ℚ),
      cs ≠ [] → cs.length ≤ 10 →
      mapMExcept (scoreCand q yh) cs = Except.ok qs →
      find_best_match (fun _ _ => cs) q yh = Except.ok m →
      listMaxOf qs = some bs →
      ((m.match_status = "HIGH_CONFIDENCE" ↔ 85 ≤ bs) ∧
       (m.match_status = "MEDIUM_CONFIDENCE" ↔ 70 ≤ bs ∧ bs < 85) ∧
       (m.match_status = "LOW_CONFIDENCE" ↔ bs < 70) ∧
       (m.needs_review = true ↔ m.match_status ≠ "HIGH_CONFIDENCE"))) := by
  refine ⟨?_, rfl, rfl, rfl, ?_⟩
  · intro q yh
    unfold find_best_match
    dsimp only
    simp [ite_self]
  · intro q yh cs qs m bs hne hlen hqs hm hmax
    obtain ⟨p, hfa, hmb⟩ := find_best_match_ok_shape cs q yh qs m hne hlen hqs hm
    obtain ⟨hmem, hub, _⟩ := firstArgmax_spec _ p hfa
    obtain ⟨hbsmem, hbsub⟩ := listMaxOf_spec qs bs hmax
    have hql : qs.length = cs.length := mapMExcept_length _ cs qs hqs
    have hp1 : p.1 ∈ qs := (List.of_mem_zip hmem).1
    have hbs_le : bs ≤ p.1 := by
      obtain ⟨j, hget⟩ := List.mem_iff_get.mp hbsmem
      have hjq : (j : Nat) < qs.length := j.isLt
      have hjz : (j : Nat) < (qs.zip cs).length := by
        rw [List.length_zip]
        omega
      have hjc : (j : Nat) < cs.length := by omega
      have hpair : (qs.zip cs).get ⟨(j : Nat), hjz⟩
          = (qs.get ⟨(j : Nat), hjq⟩, cs.get ⟨(j : Nat), hjc⟩) := by
        rw [List.get_eq_getElem, List.get_eq_getElem, List.get_eq_getElem, List.getElem_zip]
      have hmemz := List.get_mem (qs.zip cs) (j : Nat) hjz
      rw [hpair] at hmemz
      have h2 := hub _ hmemz
      simp only at h2
      have hje : (⟨(j : Nat), hjq⟩ : Fin qs.length) = j := Fin.ext rfl
      rw [hje, hget] at h2
      exact h2
    have hle : p.1 ≤ bs := hbsub p.1 hp1
    have heq : p.1 = bs := le_antisymm hle hbs_le
    rw [heq] at hmb
    subst hmb
    unfold buildMatchInfo
    dsimp only
    by_cases h85 : 85 ≤ bs
    · rw [if_pos h85]
      refine ⟨⟨fun _ => h85, fun _ => rfl⟩,
        ⟨fun hc => absurd hc (by decide), fun hc => absurd h85 (not_le.mpr hc.2)⟩,
        ⟨fun hc => absurd hc (by decide), fun hc => absurd h85 (not_le.mpr (by linarith))⟩,
        ⟨fun hc => absurd h85 (not_le.mpr (of_decide_eq_true hc)), fun hc => absurd rfl hc⟩⟩
    · rw [if_neg h85]
      by_cases h70 : 70 ≤ bs
      · rw [if_pos h70]
        refine ⟨⟨fun hc => absurd hc (by decide), fun hc => absurd hc h85⟩,
          ⟨fun _ => ⟨h70, not_le.mp h85⟩, fun _ => rfl⟩,
          ⟨fun hc => absurd hc (by decide), fun hc => absurd h70 (not_le.mpr hc)⟩,
          ⟨fun _ => by decide, fun _ => decide_eq_true (not_le.mp h85)⟩⟩
      · rw [if_neg h70]
        refine ⟨⟨fun hc => absurd hc (by decide), fun hc => absurd hc h85⟩,
          ⟨fun hc => absurd hc (by decide), fun hc => absurd hc.1 h70⟩,
          ⟨fun _ => not_le.mp h70, fun _ => rfl⟩,
          ⟨fun _ => by decide, fun _ => decide_eq_true (not_le.mp h85)⟩⟩

/-- A concrete candidate used by the selection witnesses. -/
def heatCand : Cand :=
  { id := some 123, title := some "Heat", original_title := some "Heat",
    release_date := some "1995-12-15" }

/-- Witness for `claim_C2` at a concrete single-candidate list. -/
theorem claim_C2_witness :
    ((buildMatchInfo 100 heatCand).match_status = "HIGH_CONFIDENCE" ↔ (85 : ℚ) ≤ 100) ∧
    ((buildMatchInfo 100 heatCand).match_status = "MEDIUM_CONFIDENCE" ↔ ((70 : ℚ) ≤ 100 ∧ (100 : ℚ) < 85)) ∧
    ((buildMatchInfo 100 heatCand).match_status = "LOW_CONFIDENCE" ↔ (100 : ℚ) < 70) ∧
    ((buildMatchInfo 100 heatCand).needs_review = true ↔
      (buildMatchInfo 100 heatCand).match_status ≠ "HIGH_CONFIDENCE") :=
  claim_C2.2.2.2.2 "Heat" none [heatCand] [100] (buildMatchInfo 100 heatCand) 100
    (by decide) (by decide)
    (by with_unfolding_all decide) (by with_unfolding_all decide) (by with_unfolding_all decide)

/-- Claim C8: over a stubbed lookup returning the fixed non-empty candidate
list (of at most the 10 the scorer examines), `find_best_match` selects the
candidate at an index of maximal score, and every strictly earlier index
has strictly smaller score (stable descending ranking: first-returned
candidate wins ties). -/
theorem claim_C8 :
    ∀ (q : String) (yh : Option Int) (cs : List Cand) (qs : List ℚ) (m : MatchInfo),
      cs ≠ [] → cs.length ≤ 10 →
      mapMExcept (scoreCand q yh) cs = Except.ok qs →
      find_best_match (fun _ _ => cs) q yh = Except.ok m →
      ∃ i, ∃ hq : i < qs.length, ∃ hc : i < cs.length,
        m = buildMatchInfo (qs.get ⟨i, hq⟩) (cs.get ⟨i, hc⟩) ∧
        (∀ j, ∀ hj : j < qs.length, qs.get ⟨j, hj⟩ ≤ qs.get ⟨i, hq⟩) ∧
        (∀ j, ∀ hj : j < qs.length, j < i → qs.get ⟨j, hj⟩ < qs.get ⟨i, hq⟩) := by
  intro q yh cs qs m hne hlen hqs hm
  obtain ⟨p, hfa, hmb⟩ := find_best_match_ok_shape cs q yh qs m hne hlen hqs hm
  obtain ⟨hmem, hub, i, hi, hget, hfirst⟩ := firstArgmax_spec _ p hfa
  have hql : qs.length = cs.length := mapMExcept_length _ cs qs hqs
  have hzl : (qs.zip cs).length = qs.length := by
    rw [List.length_zip]
    omega
  have hq : i < qs.length := by rw [← hzl]; exact hi
  have hc : i < cs.length := by rw [← hql]; exact hq
  have hpair : (qs.zip cs).get ⟨i, hi⟩ = (qs.get ⟨i, hq⟩, cs.get ⟨i, hc⟩) := by
    rw [List.get_eq_getElem, List.get_eq_getElem, List.get_eq_getElem, List.getElem_zip]
  rw [hget] at hpair
  have hp1 : p.1 = qs.get ⟨i, hq⟩ := congrArg Prod.fst hpair
  have hp2 : p.2 = cs.get ⟨i, hc⟩ := congrArg Prod.snd hpair
  refine ⟨i, hq, hc, ?_, ?_, ?_⟩
  · rw [hmb, hp1, hp2]
  · intro j hj
    have hjz : j < (qs.zip cs).length := by rw [hzl]; exact hj
    have hjc : j < cs.length := by omega
    have hpj : (qs.zip cs).get ⟨j, hjz⟩ = (qs.get ⟨j, hj⟩, cs.get ⟨j, hjc⟩) := by
      rw [List.get_eq_getElem, List.get_eq_getElem, List.get_eq_getElem, List.getElem_zip]
    have hmemz := List.get_mem (qs.zip cs) j hjz
    rw [hpj] at hmemz
    have h2 := hub _ hmemz
    simp only at h2
    rw [← hp1]
    exact h2
  · intro j hj hji
    have hjz : j < (qs.zip cs).length := by rw [hzl]; exact hj
    have hjc : j < cs.length := by omega
    have hpj : (qs.zip cs).get ⟨j, hjz⟩ = (qs.get ⟨j, hj⟩, cs.get ⟨j, hjc⟩) := by
      rw [List.get_eq_getElem, List.get_eq_getElem, List.get_eq_getElem, List.getElem_zip]
    have h2 := hfirst j hjz hji
    rw [hpj] at h2
    simp only at h2
    rw [← hp1]
    exact h2

/-- Candidates used by the `claim_C8` witness. -/
def tieCandA : Cand :=
  { id := some 1, title := some "Heat", original_title := some "Heat", release_date := none }

/-- Second tied candidate used by the `claim_C8` witness. -/
def tieCandB : Cand :=
  { id := some 2, title := some "Heat", original_title := some "Heat", release_date := none }

/-- Witness for `claim_C8`: two candidates with equal maximal scores; the
first is selected. -/
theorem claim_C8_witness :
    ∃ i, ∃ hq : i < ([(100 : ℚ), 100] : List ℚ).length,
      ∃ hc : i < ([tieCandA, tieCandB] : List Cand).length,
      buildMatchInfo 100 tieCandA
        = buildMatchInfo (([(100 : ℚ), 100] : List ℚ).get ⟨i, hq⟩)
            (([tieCandA, tieCandB] : List Cand).get ⟨i, hc⟩) ∧
        (∀ j, ∀ hj : j < ([(100 : ℚ), 100] : List ℚ).length,
          ([(100 : ℚ), 100] : List ℚ).get ⟨j, hj⟩ ≤ ([(100 : ℚ), 100] : List ℚ).get ⟨i, hq⟩) ∧
        (∀ j, ∀ hj : j < ([(100 : ℚ), 100] : List ℚ).length, j < i →
          ([(100 : ℚ), 100] : List ℚ).get ⟨j, hj⟩ < ([(100 : ℚ), 100] : List ℚ).get ⟨i, hq⟩) :=
  claim_C8 "Heat" none [tieCandA, tieCandB] [100, 100] (buildMatchInfo 100 tieCandA)
    (by decide) (by decide)
    (by with_unfolding_all decide) (by with_unfolding_all decide)

/-! ## Property lines, Python dictionaries and formatting

Shared primitives for the property-block handling of `enrich_org_tmdb.py`,
`update_tmdb_from_suggested.py` and `inject_knowledge_properties.py`. -/

/-- Python `s.startswith(pre)`. -/
def pyStartsWith (s pre : String) : Bool := pre.data.isPrefixOf s.data

/-- Python regex `\w` (ASCII model): letters, digits, underscore. -/
def isWordChar (c : Char) : Bool := c.isAlphanum || c = '_'

/-- Python `re.match(r'^:(\w+):\s*(.*)$', s)` with the second group
stripped, as used by the property scan of `enrich_org_tmdb.py` (line 236). -/
def pyMatchPropW (s : String) : Option (String × String) :=
  match s.data with
  | [] => none
  | c0 :: rest =>
    if c0 = ':' then
      let key := rest.takeWhile isWordChar
      if key = [] then none
      else
        match rest.drop key.length with
        | [] => none
        | c1 :: after =>
          if c1 = ':' then some (⟨key⟩, pyStrip ⟨after.dropWhile Char.isWhitespace⟩)
          else none
    else none

/-- Python `re.match(r":([^:]+):\s*(.*)", s)` as used by the property scan
of `update_tmdb_from_suggested.py` (line 56) and
`inject_knowledge_properties.py` (line 66); the value is not stripped. -/
def pyMatchPropColon (s : String) : Option (String × String) :=
  match s.data with
  | [] => none
  | c0 :: rest =>
    if c0 = ':' then
      let key := rest.takeWhile (fun c => c ≠ ':')
      if key = [] then none
      else if key.length < rest.length then
        some (⟨key⟩, ⟨(rest.drop (key.length + 1)).dropWhile Char.isWhitespace⟩)
      else none
    else none

/-- Python `dict` assignment `d[k] = v`: a later assignment replaces the
value in place (the key keeps its first-insertion position); a new key is
appended. -/
def pyDictInsert (m : List (String × String)) (k v : String) : List (String × String) :=
  if m.any (fun kv => kv.1 == k) then
    m.map (fun kv => if kv.1 == k then (kv.1, v) else kv)
  else m ++ [(k, v)]

/-- Python `d.get(k)` / `k in d`. -/
def pyDictGet? (m : List (String × String)) (k : String) : Option String :=
  (m.find? (fun kv => kv.1 == k)).map Prod.snd

/-- The property scan of `enrich_org_tmdb.py` (lines 232-241) over the
lines strictly between `:PROPERTIES:` and `:END:`. -/
def scanProps (ls : List String) : List (String × String) :=
  ls.foldl
    (fun m l =>
      match pyMatchPropW (pyStrip l) with
      | some kv => pyDictInsert m kv.1 kv.2
      | none => m)
    []

/-- Python `line.strip().startswith('*')`: the heading test of the
processing loop. -/
def isHeadingLine (l : String) : Bool := pyStartsWith (pyStrip l) "*"

/-- Python `line.strip() == ':END:'`. -/
def isEndLine (l : String) : Bool := pyStrip l == ":END:"

/-- Python `s.rstrip("\n")`. -/
def rstripNl (s : String) : String :=
  ⟨(s.data.reverse.dropWhile (fun c => c = Char.ofNat 10)).reverse⟩

/-- Python `str(None)` / `str(s)` of an optional string interpolated into an
f-string. -/
def pyReprOpt (o : Option String) : String :=
  match o with
  | some s => s
  | none => "None"

/-- Python `str(confidence)` for the two-decimal rounded confidences the
scripts print (non-negative; an integral float prints with a trailing
`.0`).  The cap branch of the scorer can produce the Python int `100`,
printed `100` rather than `100.0`; no theorem below evaluates this function
at an integral value, so the distinction is immaterial here. -/
def confidenceStr (q : ℚ) : String :=
  let n := bankRound (q * 100)
  let ip := n / 100
  let rem := (n % 100).toNat
  if rem = 0 then Int.repr ip ++ ".0"
  else if rem % 10 = 0 then Int.repr ip ++ "." ++ Nat.repr (rem / 10)
  else if rem < 10 then Int.repr ip ++ ".0" ++ Nat.repr rem
  else Int.repr ip ++ "." ++ Nat.repr rem

/-- Python `f"{x:.2f}"` for the non-negative confidences printed by
`update_tmdb_from_suggested.py`. -/
def formatFixed2 (q : ℚ) : String :=
  let n := bankRound (q * 100)
  let rem := (n % 100).toNat
  Int.repr (n / 100) ++ "." ++ (if rem < 10 then "0" ++ Nat.repr rem else Nat.repr rem)

theorem length_dropWhile_le {α : Type} (p : α → Bool) (l : List α) :
    (l.dropWhile p).length ≤ l.length := by
  induction l with
  | nil => simp
  | cons x xs ih =>
    rw [List.dropWhile_cons]
    by_cases h : p x = true
    · rw [if_pos h]
      simp only [List.length_cons]
      omega
    · rw [if_neg h]

theorem takeWhile_append_all {α : Type} (p : α → Bool) (l1 l2 : List α)
    (h : ∀ x ∈ l1, p x = true) :
    (l1 ++ l2).takeWhile p = l1 ++ l2.takeWhile p := by
  induction l1 with
  | nil => simp
  | cons x xs ih =>
    simp only [List.cons_append, List.takeWhile_cons, h x (by simp), if_true]
    rw [ih (fun y hy => h y (by simp [hy]))]

theorem dropWhile_append_all {α : Type} (p : α → Bool) (l1 l2 : List α)
    (h : ∀ x ∈ l1, p x = true) :
    (l1 ++ l2).dropWhile p = l2.dropWhile p := by
  induction l1 with
  | nil => simp
  | cons x xs ih =>
    simp only [List.cons_append, List.dropWhile_cons, h x (by simp), if_true]
    exact ih (fun y hy => h y (by simp [hy]))

theorem takeWhile_cons_false {α : Type} (p : α → Bool) (x : α) (xs : List α)
    (h : p x = false) : (x :: xs).takeWhile p = [] := by
  simp [List.takeWhile_cons, h]

theorem dropWhile_cons_false {α : Type} (p : α → Bool) (x : α) (xs : List α)
    (h : p x = false) : (x :: xs).dropWhile p = x :: xs := by
  simp [List.dropWhile_cons, h]

/-! ## The enrichment pipeline (`enrich_org_tmdb.py` `process_org_file`)

The pure core of `process_org_file` (lines 180-371): walk the lines; on a
parses-as-movie heading, scan its property block, honour the two skip gates
(`AI_VERIFIED`/`NEEDS_REVIEW` and `TMDB_ID`), otherwise match (using the
`SUGGESTED_SEARCH` property as the query when present) and rebuild the
property block, dropping `SUGGESTED_SEARCH` lines when an id was found and
appending the TMDB properties and `NEEDS_REVIEW`.  File IO, the backup and
the incremental interim writes are dropped: the function returns the final
line list, which is what the last write persists. -/

/-- Whether the line after the heading opens a property block
(`lines[i+1].strip() == ':PROPERTIES:'`). -/
def hasPropsB (rest : List String) : Bool :=
  match rest.head? with
  | some l2 => pyStrip l2 == ":PROPERTIES:"
  | none => false

/-- The record's scanned properties (`enrich_org_tmdb.py` 232-241). -/
def recordProps (rest : List String) : List (String × String) :=
  if hasPropsB rest then scanProps (rest.tail.takeWhile (fun l => !(isEndLine l))) else []

/-- The TMDB property lines appended to a rebuilt block
(`enrich_org_tmdb.py` 311-317). -/
def tmdbLines (mi : MatchInfo) : List String :=
  (if pyTruthyInt mi.tmdb_id = true then
    [":TMDB_ID: " ++ (match mi.tmdb_id with | some n => Int.repr n | none => "None") ++ "\n",
     ":TMDB_TITLE: " ++ pyReprOpt mi.tmdb_title ++ "\n",
     ":TMDB_CONFIDENCE: " ++ confidenceStr mi.confidence ++ "\n"]
   else []) ++
  (if mi.needs_review = true then [":NEEDS_REVIEW: true\n"] else [])

/-- The copy of existing property lines, skipping `SUGGESTED_SEARCH` when a
match was found (`enrich_org_tmdb.py` 300-306). -/
def filterSuggested (mi : MatchInfo) (ls : List String) : List String :=
  ls.filter (fun l => !(pyStartsWith (pyStrip l) ":SUGGESTED_SEARCH:" && pyTruthyInt mi.tmdb_id))

/-- The lines left unconsumed after one record is processed (independent of
the match outcome). -/
def enrichRecordRemaining (rest : List String) : List String :=
  if hasPropsB rest then
    match rest with
    | _p :: r1 =>
      match r1.dropWhile (fun l => !(isEndLine l)) with
      | [] => []
      | _e :: r2 => r2.dropWhile (fun l => !(isHeadingLine l))
    | [] => []
  else rest.dropWhile (fun l => !(isHeadingLine l))

/-- The output chunk for one processed (non-skipped) record. -/
def enrichRecordChunk (line : String) (rest : List String) (mi : MatchInfo) : List String :=
  if hasPropsB rest then
    match rest with
    | p :: r1 =>
      line :: p :: filterSuggested mi (r1.takeWhile (fun l => !(isEndLine l))) ++ tmdbLines mi ++
        (match r1.dropWhile (fun l => !(isEndLine l)) with
         | [] => []
         | e :: r2 => e :: r2.takeWhile (fun l => !(isHeadingLine l)))
    | [] => [line]
  else
    line :: ":PROPERTIES:\n" :: tmdbLines mi ++ ":END:\n" :: rest.takeWhile (fun l => !(isHeadingLine l))

/-- One iteration of the processing loop, on the line at the cursor and the
lines after it: returns the output chunk (or the propagated scorer
exception) and the unconsumed remaining lines. -/
def enrichStep (search : String → Option Int → List Cand) (line : String) (rest : List String) :
    Except Unit (List String) × List String :=
  match parse_org_title line with
  | none => (Except.ok [line], rest)
  | some parsed =>
    let props := recordProps rest
    if pyDictGet? props "AI_VERIFIED" = some "true" ∧ pyDictGet? props "NEEDS_REVIEW" = some "false" then
      (Except.ok (line :: rest.takeWhile (fun l => !(isHeadingLine l))),
       rest.dropWhile (fun l => !(isHeadingLine l)))
    else if (pyDictGet? props "TMDB_ID").isSome then
      (Except.ok (line :: rest.takeWhile (fun l => !(isHeadingLine l))),
       rest.dropWhile (fun l => !(isHeadingLine l)))
    else
      let query := (pyDictGet? props "SUGGESTED_SEARCH").getD parsed.2.1
      match find_best_match search query parsed.2.2 with
      | Except.error e => (Except.error e, enrichRecordRemaining rest)
      | Except.ok mi => (Except.ok (enrichRecordChunk line rest mi), enrichRecordRemaining rest)

theorem enrichRecordRemaining_le (rest : List String) :
    (enrichRecordRemaining rest).length ≤ rest.length := by
  unfold enrichRecordRemaining
  by_cases h : hasPropsB rest = true
  · rw [if_pos h]
    cases rest with
    | nil => simp
    | cons p r1 =>
      dsimp only
      cases hdw : r1.dropWhile (fun l => !(isEndLine l)) with
      | nil => simp
      | cons e r2 =>
        dsimp only
        have h1 : (r1.dropWhile (fun l => !(isEndLine l))).length ≤ r1.length :=
          length_dropWhile_le _ r1
        rw [hdw] at h1
        have h2 : (r2.dropWhile (fun l => !(isHeadingLine l))).length ≤ r2.length :=
          length_dropWhile_le _ r2
        simp only [List.length_cons] at h1 ⊢
        omega
  · rw [if_neg h]
    exact length_dropWhile_le _ rest

theorem enrichStep_remaining_le (search : String → Option Int → List Cand)
    (line : String) (rest : List String) :
    (enrichStep search line rest).2.length ≤ rest.length := by
  unfold enrichStep
  cases parse_org_title line with
  | none => exact le_refl _
  | some parsed =>
    dsimp only
    by_cases h1 : pyDictGet? (recordProps rest) "AI_VERIFIED" = some "true" ∧
        pyDictGet? (recordProps rest) "NEEDS_REVIEW" = some "false"
    · rw [if_pos h1]
      exact length_dropWhile_le _ rest
    · rw [if_neg h1]
      by_cases h2 : (pyDictGet? (recordProps rest) "TMDB_ID").isSome
      · rw [if_pos h2]
        exact length_dropWhile_le _ rest
      · rw [if_neg h2]
        cases find_best_match search ((pyDictGet? (recordProps rest) "SUGGESTED_SEARCH").getD parsed.2.1) parsed.2.2 with
        | error e => exact enrichRecordRemaining_le rest
        | ok mi => exact enrichRecordRemaining_le rest

/-- Fuelled processing loop (structural recursion on the fuel). -/
def enrichProcessAux (search : String → Option Int → List Cand) :
    Nat → List String → Except Unit (List String)
  | 0, _ => Except.ok []
  | _ + 1, [] => Except.ok []
  | n + 1, line :: rest =>
    match (enrichStep search line rest).1 with
    | Except.error e => Except.error e
    | Except.ok chunk =>
      match enrichProcessAux search n (enrichStep search line rest).2 with
      | Except.error e => Except.error e
      | Except.ok out => Except.ok (chunk ++ out)

theorem enrichProcessAux_eq (search : String → Option Int → List Cand) :
    ∀ (n m : Nat) (ls : List String), ls.length ≤ n → ls.length ≤ m →
    enrichProcessAux search n ls = enrichProcessAux search m ls := by
  intro n
  induction n with
  | zero =>
    intro m ls hn hm
    have h0 : ls = [] := List.length_eq_zero.mp (Nat.le_zero.mp hn)
    subst h0
    cases m <;> rfl
  | succ n ih =>
    intro m ls hn hm
    cases ls with
    | nil => cases m <;> rfl
    | cons line rest =>
      cases m with
      | zero => simp at hm
      | succ m =>
        simp only [List.length_cons] at hn hm
        simp only [enrichProcessAux]
        cases (enrichStep search line rest).1 with
        | error e => rfl
        | ok chunk =>
          dsimp only
          have hr := enrichStep_remaining_le search line rest
          rw [ih m (enrichStep search line rest).2 (by omega) (by omega)]

/-- The pure core of `process_org_file`: the final content of the file. -/
def enrichProcess (search : String → Option Int → List Cand) (lines : List String) :
    Except Unit (List String) :=
  enrichProcessAux search lines.length lines

theorem enrichProcess_nil (search : String → Option Int → List Cand) :
    enrichProcess search [] = Except.ok [] := rfl

theorem enrichProcess_cons (search : String → Option Int → List Cand)
    (line : String) (rest : List String) :
    enrichProcess search (line :: rest) =
      match (enrichStep search line rest).1 with
      | Except.error e => Except.error e
      | Except.ok chunk =>
        match enrichProcess search (enrichStep search line rest).2 with
        | Except.error e => Except.error e
        | Except.ok out => Except.ok (chunk ++ out) := by
  unfold enrichProcess
  simp only [List.length_cons, enrichProcessAux]
  cases (enrichStep search line rest).1 with
  | error e => rfl
  | ok chunk =>
    dsimp only
    have hr := enrichStep_remaining_le search line rest
    rw [enrichProcessAux_eq search rest.length (enrichStep search line rest).2.length
      (enrichStep search line rest).2 hr (le_refl _)]

/-! ## The suggested-search updater (`update_tmdb_from_suggested.py`)

`parse_org_file` (lines 24-67) builds entries with the recorded positions of
their property-block markers; `update_org_entries` (lines 129-242, with
`dry_run = False`) filters the entries, re-matches each against the lookup
using its `SUGGESTED_SEARCH` property, rebuilds its property block from the
mutated dictionary, and splices it over the recorded line range.  Printing,
rate limiting and the final file write are dropped; the function returns the
final line list and the update count. -/

/-- One parsed entry of `parse_org_file` (the unused `line_number` and
`end_line` bookkeeping fields are omitted). -/
structure OrgEntry where
  heading : String
  properties_start : Option Nat
  properties_end : Option Nat
  properties : List (String × String)
deriving DecidableEq

/-- Parser state: finished entries plus the entry being built. -/
structure ParseState where
  entries : List OrgEntry
  current : Option OrgEntry
deriving DecidableEq

/-- One line of `parse_org_file` (lines 35-60). -/
def parseOrgLine (st : ParseState) (idx : Nat) (line : String) : ParseState :=
  if pyStartsWith line "* " then
    { entries := st.entries ++ (match st.current with | some e => [e] | none => []),
      current := some
        { heading := rstripNl (⟨line.data.drop 2⟩ : String),
          properties_start := none, properties_end := none, properties := [] } }
  else
    match st.current with
    | none => st
    | some e =>
      if pyStrip line == ":PROPERTIES:" then
        { st with current := some { e with properties_start := some idx } }
      else if pyStrip line == ":END:" then
        { st with current := some { e with properties_end := some idx } }
      else if e.properties_start.isSome && !(e.properties_end.isSome) then
        match pyMatchPropColon (pyStrip line) with
        | some kv => { st with current := some { e with properties := pyDictInsert e.properties kv.1 kv.2 } }
        | none => st
      else st

/-- `parse_org_file` (lines 24-67): the entry list (the unchanged line list
is the argument itself). -/
def parse_org_file (lines : List String) : List OrgEntry :=
  let st := (lines.enum).foldl (fun st p => parseOrgLine st p.1 p.2)
    { entries := [], current := none }
  st.entries ++ (match st.current with | some e => [e] | none => [])

/-- The `to_process` filter of `update_org_entries` (lines 137-149): keep
entries with a `SUGGESTED_SEARCH` and without a finalized `TMDB_ID`
(i.e. not both `TMDB_ID` present and `NEEDS_REVIEW` different from
"true"). -/
def shouldProcessEntry (props : List (String × String)) : Bool :=
  (pyDictGet? props "SUGGESTED_SEARCH").isSome &&
    !((pyDictGet? props "TMDB_ID").isSome && !(pyDictGet? props "NEEDS_REVIEW" == some "true"))

/-- A matching position for `re.search(r'\b(19\d{2}|20[0-2]\d)\b', s)`
at the head of the character list (the leading word boundary is checked by
the caller). -/
def yearTokenAt : List Char → Option Nat
  | c1 :: c2 :: c3 :: c4 :: rest =>
    let boundaryAfter : Bool := match rest with | [] => true | c5 :: _ => !(isWordChar c5)
    if ((c1 = '1' ∧ c2 = '9' ∧ c3.isDigit ∧ c4.isDigit) ∨
        (c1 = '2' ∧ c2 = '0' ∧ (c3 = '0' ∨ c3 = '1' ∨ c3 = '2') ∧ c4.isDigit)) ∧
       boundaryAfter = true then
      some (digitsVal [c1, c2, c3, c4])
    else none
  | _ => none

/-- Scan for the leftmost year token; the flag records whether the previous
character was a word character (in which case no word boundary holds
here). -/
def findYearTokenAux : Bool → List Char → Option Nat
  | _, [] => none
  | prevWord, c :: rest =>
    if prevWord = false then
      match yearTokenAt (c :: rest) with
      | some v => some v
      | none => findYearTokenAux (isWordChar c) rest
    else findYearTokenAux (isWordChar c) rest

/-- Python `re.search(r'\b(19\d{2}|20[0-2]\d)\b', s)`, group 1. -/
def findYearToken (s : String) : Option Nat := findYearTokenAux false s.data

/-- The year-hint extraction of `update_org_entries` (lines 160-171): the
`YEAR` property when it parses to a truthy int, else the first year-like
token of the suggested search string. -/
def updateYearHint (props : List (String × String)) (suggested : String) : Option Int :=
  let y1 : Option Int :=
    match pyDictGet? props "YEAR" with
    | some ys => pyToInt ys
    | none => none
  if pyTruthyInt y1 = true then y1
  else
    match findYearToken suggested with
    | some v => some (v : Int)
    | none => none

/-- The best-match selection loop of `update_org_entries` (lines 184-204):
strictly greater confidence wins, starting from confidence 0 and no
match. -/
def updateBestMatch (heading suggested : String) (yh : Option Int) (results : List Cand) :
    ℚ × Option Cand :=
  (results.take 5).foldl
    (fun acc r =>
      let conf := calculate_confidence heading suggested (r.title.getD "") yh (r.release_date.getD "")
      if acc.1 < conf then (conf, some r) else acc)
    (0, none)

/-- The property-block serializer shared by `update_tmdb_from_suggested.py`
(lines 219-222) and `inject_knowledge_properties.py` (lines 119-122). -/
def buildPropLines (props : List (String × String)) : List String :=
  ":PROPERTIES:\n" :: props.map (fun kv => ":" ++ kv.1 ++ ": " ++ kv.2 ++ "\n") ++ [":END:\n"]

/-- Python `lines[start:fin] = repl`. -/
def spliceLines (lines : List String) (start fin : Nat) (repl : List String) : List String :=
  lines.take start ++ repl ++ lines.drop fin

/-- One entry of the update loop of `update_org_entries` (lines 155-229,
`dry_run = False`): accumulator is (current lines, update count).  A
missing `SUGGESTED_SEARCH` (impossible after the filter), a missing result
id, or missing marker positions model the Python `KeyError`/`TypeError`. -/
def updateOrgStep (search : String → Option Int → List Cand)
    (acc : List String × Nat) (e : OrgEntry) : Except Unit (List String × Nat) :=
  match pyDictGet? e.properties "SUGGESTED_SEARCH" with
  | none => Except.error ()
  | some suggested =>
    let yh := updateYearHint e.properties suggested
    let results := search suggested yh
    if results = [] then Except.ok acc
    else
      let best := updateBestMatch e.heading suggested yh results
      match best.2 with
      | none => Except.ok acc
      | some bm =>
        match bm.id with
        | none => Except.error ()
        | some tid =>
          let props2 := pyDictInsert e.properties "TMDB_ID" (Int.repr tid)
          let props3 := pyDictInsert props2 "TMDB_TITLE" (bm.title.getD "")
          let props4 := pyDictInsert props3 "TMDB_CONFIDENCE" (formatFixed2 best.1)
          match e.properties_start, e.properties_end with
          | some st, some en =>
            Except.ok (spliceLines acc.1 st (en + 1) (buildPropLines props4), acc.2 + 1)
          | _, _ => Except.error ()

/-- The update loop over the filtered entries. -/
def updateFold (search : String → Option Int → List Cand) :
    List OrgEntry → List String × Nat → Except Unit (List String × Nat)
  | [], acc => Except.ok acc
  | e :: es, acc =>
    match updateOrgStep search acc e with
    | Except.error err => Except.error err
    | Except.ok acc2 => updateFold search es acc2

/-- The pure core of `update_org_entries` (`dry_run = False`): the final
line list and the number of updates. -/
def update_org_entries (search : String → Option Int → List Cand) (lines : List String) :
    Except Unit (List String × Nat) :=
  let entries := parse_org_file lines
  let toProcess := entries.filter (fun e => shouldProcessEntry e.properties)
  updateFold search toProcess (lines, 0)

/-! ## Claim C5 -/

/-- Frame property of the enrichment run: a record whose scanned properties
contain `TMDB_ID` is copied verbatim (heading plus all lines up to the next
heading) and contributes nothing to the search, whatever its other
properties say. -/
theorem enrich_tmdb_skip (search : String → Option Int → List Cand)
    (hd : String) (b rest2 : List String) (parsed : String × String × Option Int)
    (hp : parse_org_title hd = some parsed)
    (hb : ∀ l ∈ b, isHeadingLine l = false)
    (hrest : rest2 = [] ∨ ∃ h2 t2, rest2 = h2 :: t2 ∧ isHeadingLine h2 = true)
    (hskip : (pyDictGet? (recordProps (b ++ rest2)) "TMDB_ID").isSome = true) :
    enrichProcess search (hd :: (b ++ rest2))
      = (enrichProcess search rest2).map (fun out => (hd :: b) ++ out) := by
  have htk : (b ++ rest2).takeWhile (fun l => !(isHeadingLine l)) = b := by
    rw [takeWhile_append_all _ b rest2 (fun l hl => by simp [hb l hl])]
    rcases hrest with hr | ⟨h2, t2, hr, hh2⟩
    · rw [hr]; simp
    · rw [hr, takeWhile_cons_false _ _ _ (by simp [hh2])]
      simp
  have hdr : (b ++ rest2).dropWhile (fun l => !(isHeadingLine l)) = rest2 := by
    rw [dropWhile_append_all _ b rest2 (fun l hl => by simp [hb l hl])]
    rcases hrest with hr | ⟨h2, t2, hr, hh2⟩
    · rw [hr]; rfl
    · rw [hr, dropWhile_cons_false _ _ _ (by simp [hh2])]
  rw [enrichProcess_cons]
  unfold enrichStep
  rw [hp]
  dsimp only
  by_cases hAI : pyDictGet? (recordProps (b ++ rest2)) "AI_VERIFIED" = some "true" ∧
      pyDictGet? (recordProps (b ++ rest2)) "NEEDS_REVIEW" = some "false"
  · rw [if_pos hAI]
    dsimp only
    rw [htk, hdr]
    cases enrichProcess search rest2 with
    | error e => rfl
    | ok out => rfl
  · rw [if_neg hAI, if_pos hskip]
    dsimp only
    rw [htk, hdr]
    cases enrichProcess search rest2 with
    | error e => rfl
    | ok out => rfl

/-- The stub lookup and document of the C5 counterexample. -/
def stub949 : String → Option Int → List Cand :=
  fun _ _ => [{ id := some 949, title := some "Heat", original_title := some "Heat",
                release_date := some "1995-12-15" }]

/-- Document with a record that already has `TMDB_ID` but carries
`NEEDS_REVIEW: true` and a `SUGGESTED_SEARCH`. -/
def doc5 : List String :=
  ["* Heat\n", ":PROPERTIES:\n", ":TMDB_ID: 5\n", ":NEEDS_REVIEW: true\n",
   ":SUGGESTED_SEARCH: Heat 1995\n", ":END:\n"]

/-- What the updater actually produces for `doc5`. -/
def doc5out : List String :=
  ["* Heat\n", ":PROPERTIES:\n", ":TMDB_ID: 949\n", ":NEEDS_REVIEW: true\n",
   ":SUGGESTED_SEARCH: Heat 1995\n", ":TMDB_TITLE: Heat\n",
   ":TMDB_CONFIDENCE: 81.54\n", ":END:\n"] 

/-- Claim C5 as frozen is false on the code: the suggested-search updater
re-matches a record whose property mapping already contains `TMDB_ID`
(because its `NEEDS_REVIEW` is "true"), changing its lines. -/
theorem claim_C5_counterexample :
    parse_org_file doc5 =
      [{ heading := "Heat", properties_start := some 1, properties_end := some 5,
         properties := [("TMDB_ID", "5"), ("NEEDS_REVIEW", "true"),
                        ("SUGGESTED_SEARCH", "Heat 1995")] }] ∧
    pyDictGet? [("TMDB_ID", "5"), ("NEEDS_REVIEW", "true"),
                ("SUGGESTED_SEARCH", "Heat 1995")] "TMDB_ID" = some "5" ∧
    update_org_entries stub949 doc5 = Except.ok (doc5out, 1) ∧
    doc5out ≠ doc5 := by
  refine ⟨?_, ?_, ?_, ?_⟩
  · with_unfolding_all decide
  · with_unfolding_all decide
  · with_unfolding_all decide
  · with_unfolding_all decide

/-- Claim C5 (amended): in the enrichment run, `TMDB_ID` presence alone
exempts a record from re-matching and leaves its lines unchanged; the
suggested-search updater exempts a `TMDB_ID` record only when its
`NEEDS_REVIEW` is not "true", and re-processes it when `NEEDS_REVIEW` is
"true" and a `SUGGESTED_SEARCH` is present. -/
theorem claim_C5_amended :
    (∀ (search : String → Option Int → List Cand) (hd : String) (b rest2 : List String)
      (parsed : String × String × Option Int),
      parse_org_title hd = some parsed →
      (∀ l ∈ b, isHeadingLine l = false) →
      (rest2 = [] ∨ ∃ h2 t2, rest2 = h2 :: t2 ∧ isHeadingLine h2 = true) →
      (pyDictGet? (recordProps (b ++ rest2)) "TMDB_ID").isSome = true →
      enrichProcess search (hd :: (b ++ rest2))
        = (enrichProcess search rest2).map (fun out => (hd :: b) ++ out)) ∧
    (∀ props : List (String × String),
      (pyDictGet? props "TMDB_ID").isSome = true →
      ¬ pyDictGet? props "NEEDS_REVIEW" = some "true" →
      shouldProcessEntry props = false) ∧
    (∀ props : List (String × String),
      (pyDictGet? props "SUGGESTED_SEARCH").isSome = true →
      pyDictGet? props "NEEDS_REVIEW" = some "true" →
      shouldProcessEntry props = true) := by
  refine ⟨?_, ?_, ?_⟩
  · intro search hd b rest2 parsed hp hb hrest hskip
    exact enrich_tmdb_skip search hd b rest2 parsed hp hb hrest hskip
  · intro props h1 h2
    unfold shouldProcessEntry
    have h3 : (pyDictGet? props "NEEDS_REVIEW" == some "true") = false := by
      simp only [beq_eq_false_iff_ne, ne_eq]
      exact h2
    rw [h1, h3]
    simp
  · intro props h1 h2
    unfold shouldProcessEntry
    have h3 : (pyDictGet? props "NEEDS_REVIEW" == some "true") = true := by
      simp [h2]
    rw [h1, h3]
    simp

/-- Witness for `claim_C5_amended` at concrete inputs. -/
theorem claim_C5_witness :
    (enrichProcess (fun _ _ => []) ("* Heat\n" :: ([":PROPERTIES:\n", ":TMDB_ID: 77\n", ":END:\n"] ++ []))
      = (enrichProcess (fun _ _ => []) []).map
          (fun out => ("* Heat\n" :: [":PROPERTIES:\n", ":TMDB_ID: 77\n", ":END:\n"]) ++ out)) ∧
    shouldProcessEntry [("TMDB_ID", "5"), ("SUGGESTED_SEARCH", "x")] = false ∧
    shouldProcessEntry [("TMDB_ID", "5"), ("NEEDS_REVIEW", "true"), ("SUGGESTED_SEARCH", "x")] = true :=
  ⟨claim_C5_amended.1 (fun _ _ => []) "* Heat\n"
      [":PROPERTIES:\n", ":TMDB_ID: 77\n", ":END:\n"] [] ("Heat", "Heat", none)
      (by decide) (by decide) (Or.inl rfl) (by decide),
    claim_C5_amended.2.1 [("TMDB_ID", "5"), ("SUGGESTED_SEARCH", "x")] (by decide) (by decide),
    claim_C5_amended.2.2 [("TMDB_ID", "5"), ("NEEDS_REVIEW", "true"), ("SUGGESTED_SEARCH", "x")]
      (by decide) (by decide)⟩

/-! ## Claim C6 -/

theorem pyStripL_append_front (front rest : List Char) (hne : front ≠ [])
    (hf : ∀ c ∈ front, c.isWhitespace = false) :
    ∃ t, pyStripL (front ++ rest) = front ++ t := by
  unfold pyStripL
  have h1 : (front ++ rest).dropWhile Char.isWhitespace = front ++ rest := by
    cases front with
    | nil => exact absurd rfl hne
    | cons c cs =>
      rw [List.cons_append, dropWhile_cons_false _ _ _ (hf c (by simp))]
  rw [h1, List.reverse_append]
  rw [List.dropWhile_append]
  by_cases he : ((rest.reverse).dropWhile Char.isWhitespace).isEmpty = true
  · rw [if_pos he]
    have h2 : front.reverse.dropWhile Char.isWhitespace = front.reverse := by
      cases hfr : front.reverse with
      | nil => simp
      | cons c cs =>
        have hc : c ∈ front := by
          have hm : c ∈ front.reverse := by rw [hfr]; simp
          simpa using hm
        rw [dropWhile_cons_false _ _ _ (hf c hc)]
    rw [h2, List.reverse_reverse]
    exact ⟨[], by simp⟩
  · rw [if_neg he]
    rw [List.reverse_append, List.reverse_reverse]
    exact ⟨((rest.reverse).dropWhile Char.isWhitespace).reverse, rfl⟩

/-- A property line built as `":" ++ K ++ ": " ++ v ++ "\n"` always parses
back (after stripping) to the key `K`, whatever the value is, provided `K`
is a non-empty run of word characters. -/
theorem pyMatchPropW_key_line (K v0 : String) (hne : K ≠ "")
    (hword : ∀ c ∈ K.data, isWordChar c = true)
    (hnws : ∀ c ∈ K.data, c.isWhitespace = false) :
    ∃ val, pyMatchPropW (pyStrip (":" ++ K ++ ": " ++ v0 ++ "\n")) = some (K, val) := by
  have d1 : (":" : String).data = [':'] := rfl
  have d2 : (": " : String).data = [':', ' '] := rfl
  have d3 : ("\n" : String).data = [Char.ofNat 10] := rfl
  have hdata : (":" ++ K ++ ": " ++ v0 ++ "\n").data
      = (':' :: (K.data ++ [':'])) ++ (' ' :: (v0.data ++ [Char.ofNat 10])) := by
    simp only [String.data_append, d1, d2, d3]
    simp
  have hKne : K.data ≠ [] := by
    intro hc
    apply hne
    have h0 : K = ⟨K.data⟩ := rfl
    rw [h0, hc]
  have hfrontne : (':' :: (K.data ++ [':'])) ≠ [] := by simp
  have hfrontws : ∀ c ∈ (':' :: (K.data ++ [':'])), c.isWhitespace = false := by
    intro c hc
    simp only [List.mem_cons, List.mem_append, List.mem_singleton] at hc
    rcases hc with h | h | h
    · subst h; decide
    · exact hnws c h
    · rcases h with h | h
      · subst h; decide
      · simp at h
  obtain ⟨t, hstrip⟩ := pyStripL_append_front _ (' ' :: (v0.data ++ [Char.ofNat 10])) hfrontne hfrontws
  have hstrip2 : pyStrip (":" ++ K ++ ": " ++ v0 ++ "\n") = ⟨(':' :: (K.data ++ [':'])) ++ t⟩ := by
    unfold pyStrip
    rw [hdata, hstrip]
  rw [hstrip2]
  unfold pyMatchPropW
  have hshape : ((⟨(':' :: (K.data ++ [':'])) ++ t⟩ : String)).data
      = ':' :: (K.data ++ ':' :: t) := by
    show (':' :: (K.data ++ [':'])) ++ t = ':' :: (K.data ++ ':' :: t)
    simp
  rw [hshape]
  dsimp only
  rw [if_pos rfl]
  have hkey : (K.data ++ ':' :: t).takeWhile isWordChar = K.data := by
    rw [takeWhile_append_all _ _ _ hword, takeWhile_cons_false _ _ _ (by decide)]
    simp
  rw [hkey, if_neg hKne]
  have hdrop : (K.data ++ ':' :: t).drop K.data.length = ':' :: t := List.drop_left _ _
  rw [hdrop]
  dsimp only
  rw [if_pos rfl]
  exact ⟨_, rfl⟩

/-- A line that parses to the key `k` starts (stripped) with `":" ++ k ++ ":"`. -/
theorem pyMatchPropW_startsWith (s : String) (k v : String)
    (h : pyMatchPropW s = some (k, v)) : pyStartsWith s (":" ++ k ++ ":") = true := by
  unfold pyMatchPropW at h
  cases hd : s.data with
  | nil => rw [hd] at h; exact absurd h (by simp)
  | cons c0 rest =>
    rw [hd] at h
    dsimp only at h
    by_cases hc0 : c0 = ':'
    · rw [if_pos hc0] at h
      by_cases hkey : rest.takeWhile isWordChar = []
      · rw [if_pos hkey] at h
        exact absurd h (by simp)
      · rw [if_neg hkey] at h
        cases hdrop : rest.drop (rest.takeWhile isWordChar).length with
        | nil => rw [hdrop] at h; exact absurd h (by simp)
        | cons c1 after =>
          rw [hdrop] at h
          dsimp only at h
          by_cases hc1 : c1 = ':'
          · rw [if_pos hc1] at h
            simp only [Option.some.injEq, Prod.mk.injEq] at h
            have hk : k = (⟨rest.takeWhile isWordChar⟩ : String) := h.1.symm
            have hrest : rest = rest.takeWhile isWordChar ++ ':' :: after := by
              obtain ⟨u, hu⟩ := List.takeWhile_prefix (l := rest) (p := isWordChar)
              have hu2 := List.drop_left (rest.takeWhile isWordChar) u
              rw [hu] at hu2
              rw [hdrop] at hu2
              nth_rewrite 1 [← hu]
              rw [← hu2, hc1]
            unfold pyStartsWith
            apply List.isPrefixOf_iff_prefix.mpr
            have hkdata : (":" ++ k ++ ":").data = ':' :: ((rest.takeWhile isWordChar) ++ [':']) := by
              rw [hk]
              simp [String.data_append]
            refine ⟨after, ?_⟩
            rw [hkdata, hd, hc0]
            conv_rhs => rw [hrest]
            simp
          · rw [if_neg hc1] at h
            exact absurd h (by simp)
    · rw [if_neg hc0] at h
      exact absurd h (by simp)

/-- The stub lookup of the end-to-end example: one candidate titled "Heat"
released 1995-12-15 with id 123. -/
def stub123 : String → Option Int → List Cand :=
  fun _ _ => [{ id := some 123, title := some "Heat", original_title := some "Heat",
                release_date := some "1995-12-15" }]

/-- The end-to-end example document: one record with a suggested search and
no TMDB id. -/
def heatDoc : List String :=
  ["* Heat (1995)\n", ":PROPERTIES:\n", ":SUGGESTED_SEARCH: Heat 1995\n", ":END:\n"]

/-- What the enrichment run actually produces for `heatDoc`: the suggested
search is gone and `TMDB_ID: 123` is present, but the score is
930/13 which is about 71.5 (below 85), so `NEEDS_REVIEW: true` is written. -/
def heatOut : List String :=
  ["* Heat (1995)\n", ":PROPERTIES:\n", ":TMDB_ID: 123\n", ":TMDB_TITLE: Heat\n",
   ":TMDB_CONFIDENCE: 71.54\n", ":NEEDS_REVIEW: true\n", ":END:\n"]

/-- Claim C6 as frozen is false on the code: the end-to-end example record
("Heat 1995" suggested search, stub candidate "Heat"/1995-12-15/123) ends up
with `NEEDS_REVIEW: true` in its rewritten block, because the per-candidate
score is 930/13 (about 71.5), below 85 even with the exact-year bonus. -/
theorem claim_C6_counterexample :
    enrichProcess stub123 heatDoc = Except.ok heatOut ∧
    ":NEEDS_REVIEW: true\n" ∈ heatOut ∧
    calculate_match_score "Heat 1995" "Heat" "Heat" (some 1995) (some "1995-12-15")
      = Except.ok (930 / 13) ∧
    (930 / 13 : ℚ) < 85 := by
  refine ⟨?_, ?_, ?_, ?_⟩
  · with_unfolding_all decide
  · decide
  · with_unfolding_all decide
  · norm_num

/-- Claim C6 (amended): in the enrichment run, when a match with a truthy
id was found, the rewritten property block consists of the copied lines
with every `SUGGESTED_SEARCH` line removed plus the TMDB lines, and no line
of that rewritten block parses to the `SUGGESTED_SEARCH` key; the
end-to-end example yields `TMDB_ID: 123` and no `SUGGESTED_SEARCH`, but
`NEEDS_REVIEW: true` present (score 930/13 < 85). -/
theorem claim_C6_amended :
    (∀ (line p : String) (r1 : List String) (mi : MatchInfo),
      hasPropsB (p :: r1) = true →
      enrichRecordChunk line (p :: r1) mi
        = line :: p ::
            (filterSuggested mi (r1.takeWhile (fun l => !(isEndLine l))) ++ tmdbLines mi ++
              (match r1.dropWhile (fun l => !(isEndLine l)) with
               | [] => []
               | e :: r2 => e :: r2.takeWhile (fun l => !(isHeadingLine l))))) ∧
    (∀ (r1 : List String) (mi : MatchInfo) (l : String) (kv : String × String),
      pyTruthyInt mi.tmdb_id = true →
      l ∈ filterSuggested mi (r1.takeWhile (fun l2 => !(isEndLine l2))) ++ tmdbLines mi →
      pyMatchPropW (pyStrip l) = some kv →
      kv.1 ≠ "SUGGESTED_SEARCH") ∧
    (enrichProcess stub123 heatDoc = Except.ok heatOut ∧
      (∀ l ∈ heatOut, pyStartsWith (pyStrip l) ":SUGGESTED_SEARCH:" = false) ∧
      ":TMDB_ID: 123\n" ∈ heatOut ∧ ":NEEDS_REVIEW: true\n" ∈ heatOut) := by
  refine ⟨?_, ?_, ?_, ?_, ?_, ?_⟩
  · intro line p r1 mi hp
    unfold enrichRecordChunk
    rw [if_pos hp]
    rfl
  · intro r1 mi l kv htr hmem hparse
    intro hk
    rcases List.mem_append.mp hmem with hf | ht
    · obtain ⟨_, hcond⟩ := List.mem_filter.mp hf
      have hsw := pyMatchPropW_startsWith (pyStrip l) kv.1 kv.2 hparse
      rw [hk] at hsw
      have heq : ((":" ++ "SUGGESTED_SEARCH" ++ ":") : String) = ":SUGGESTED_SEARCH:" := by decide
      rw [heq] at hsw
      rw [hsw, htr] at hcond
      simp at hcond
    · unfold tmdbLines at ht
      rw [if_pos htr] at ht
      rcases List.mem_append.mp ht with h3 | h4
      · have hsplit1 : (":TMDB_ID: " : String) = ":" ++ "TMDB_ID" ++ ": " := by decide
        have hsplit2 : (":TMDB_TITLE: " : String) = ":" ++ "TMDB_TITLE" ++ ": " := by decide
        have hsplit3 : (":TMDB_CONFIDENCE: " : String) = ":" ++ "TMDB_CONFIDENCE" ++ ": " := by decide
        simp only [List.mem_cons, List.not_mem_nil, or_false] at h3
        rcases h3 with hl | hl | hl
        · obtain ⟨val, hv⟩ := pyMatchPropW_key_line "TMDB_ID"
            (match mi.tmdb_id with | some n => Int.repr n | none => "None")
            (by decide) (by decide) (by decide)
          rw [hl, hsplit1] at hparse
          rw [hparse] at hv
          simp only [Option.some.injEq] at hv
          have : kv.1 = "TMDB_ID" := by rw [hv]
          rw [hk] at this
          exact absurd this (by decide)
        · obtain ⟨val, hv⟩ := pyMatchPropW_key_line "TMDB_TITLE" (pyReprOpt mi.tmdb_title)
            (by decide) (by decide) (by decide)
          rw [hl, hsplit2] at hparse
          rw [hparse] at hv
          simp only [Option.some.injEq] at hv
          have : kv.1 = "TMDB_TITLE" := by rw [hv]
          rw [hk] at this
          exact absurd this (by decide)
        · obtain ⟨val, hv⟩ := pyMatchPropW_key_line "TMDB_CONFIDENCE" (confidenceStr mi.confidence)
            (by decide) (by decide) (by decide)
          rw [hl, hsplit3] at hparse
          rw [hparse] at hv
          simp only [Option.some.injEq] at hv
          have : kv.1 = "TMDB_CONFIDENCE" := by rw [hv]
          rw [hk] at this
          exact absurd this (by decide)
      · by_cases hnr : mi.needs_review = true
        · rw [if_pos hnr] at h4
          simp only [List.mem_singleton] at h4
          rw [h4] at hparse
          have hv : pyMatchPropW (pyStrip ":NEEDS_REVIEW: true\n") = some ("NEEDS_REVIEW", "true") := by
            decide
          rw [hparse] at hv
          simp only [Option.some.injEq] at hv
          have : kv.1 = "NEEDS_REVIEW" := by rw [hv]
          rw [hk] at this
          exact absurd this (by decide)
        · rw [if_neg hnr] at h4
          simp at h4
  · with_unfolding_all decide
  · decide
  · decide
  · decide

/-- A concrete match info used by the `claim_C6_amended` witness. -/
def wMi : MatchInfo :=
  { tmdb_id := some 5, confidence := 90, tmdb_title := some "T",
    tmdb_original_title := some "T", needs_review := false,
    match_status := "HIGH_CONFIDENCE" }

/-- Witness for `claim_C6_amended` at concrete inputs. -/
theorem claim_C6_witness :
    (enrichRecordChunk "* X\n" (":PROPERTIES:\n" :: [":END:\n"]) wMi
      = "* X\n" :: ":PROPERTIES:\n" ::
          (filterSuggested wMi (([":END:\n"] : List String).takeWhile (fun l => !(isEndLine l))) ++ tmdbLines wMi ++
            (match ([":END:\n"] : List String).dropWhile (fun l => !(isEndLine l)) with
             | [] => []
             | e :: r2 => e :: r2.takeWhile (fun l => !(isHeadingLine l))))) ∧
    (("TMDB_ID", "5") : String × String).1 ≠ "SUGGESTED_SEARCH" :=
  ⟨claim_C6_amended.1 "* X\n" ":PROPERTIES:\n" [":END:\n"] wMi (by decide),
    claim_C6_amended.2.1 [] wMi ":TMDB_ID: 5\n" ("TMDB_ID", "5") (by decide)
      (by with_unfolding_all decide) (by with_unfolding_all decide)⟩

/-! ## Claim C4: the parse/serialize round trip -/

/-- One step of the property scan of `inject_knowledge_properties.py`
(lines 64-70): strip the line, try `:([^:]+):\s*(.*)`, store into the
dict. -/
def injStep (m : List (String × String)) (l : String) : List (String × String) :=
  match pyMatchPropColon (pyStrip l) with
  | some kv => pyDictInsert m kv.1 kv.2
  | none => m

/-- The property dict built by `inject_knowledge_properties.parse_org_file`
from the lines strictly between `:PROPERTIES:` and `:END:`. -/
def injParseProps (ls : List String) : List (String × String) := ls.foldl injStep []

/-- A canonical property pair: non-empty key without colons or newlines,
non-empty value without newlines whose first and last characters are not
whitespace.  These are exactly the pairs whose serialized line survives the
strip-and-regex parse unchanged. -/
def wfPairB (kv : String × String) : Bool :=
  (!kv.1.data.isEmpty) &&
  kv.1.data.all (fun c => !(c == ':') && !(c == Char.ofNat 10)) &&
  (!kv.2.data.isEmpty) &&
  kv.2.data.all (fun c => !(c == Char.ofNat 10)) &&
  (match kv.2.data with | [] => true | c :: _ => !c.isWhitespace) &&
  (match kv.2.data.reverse with | [] => true | c :: _ => !c.isWhitespace)

theorem pyStripL_core (l : List Char)
    (h1 : ∀ c, l.head? = some c → c.isWhitespace = false)
    (h2 : ∀ c, l.reverse.head? = some c → c.isWhitespace = false) :
    pyStripL (l ++ [Char.ofNat 10]) = l := by
  unfold pyStripL
  cases l with
  | nil => decide
  | cons a t =>
    have ha : a.isWhitespace = false := h1 a rfl
    rw [List.cons_append, dropWhile_cons_false _ _ _ ha]
    have hrev : (a :: (t ++ [Char.ofNat 10])).reverse
        = Char.ofNat 10 :: (t.reverse ++ [a]) := by simp
    rw [hrev, List.dropWhile_cons, if_pos (by decide)]
    cases ht : t.reverse with
    | nil =>
      have ht2 : t = [] := by
        have h3 := congrArg List.reverse ht
        simpa using h3
      rw [ht2]
      simp [List.dropWhile_cons, ha]
    | cons c r =>
      have hc : c.isWhitespace = false := by
        apply h2 c
        rw [List.reverse_cons, ht]
        rfl
      rw [List.cons_append, dropWhile_cons_false _ _ _ hc, ← List.cons_append, ← ht]
      simp

theorem pyMatchPropColon_canonical (k v : String) (hk : k.data ≠ [])
    (hkc : ∀ c ∈ k.data, c ≠ ':')
    (hvf : ∀ c, v.data.head? = some c → c.isWhitespace = false) :
    pyMatchPropColon (":" ++ k ++ ": " ++ v) = some (k, v) := by
  have d1 : (":" : String).data = [':'] := rfl
  have d2 : (": " : String).data = [':', ' '] := rfl
  have hdata : (":" ++ k ++ ": " ++ v).data = ':' :: (k.data ++ (':' :: ' ' :: v.data)) := by
    simp only [String.data_append, d1, d2]
    simp
  unfold pyMatchPropColon
  rw [hdata]
  dsimp only
  rw [if_pos rfl]
  have hkey : (k.data ++ (':' :: ' ' :: v.data)).takeWhile (fun c => c ≠ ':') = k.data := by
    rw [takeWhile_append_all _ _ _ (fun c hc => decide_eq_true (hkc c hc)),
      takeWhile_cons_false _ _ _ (by decide), List.append_nil]
  rw [hkey, if_neg hk, if_pos (by simp [List.length_append])]
  have hdrop : (k.data ++ (':' :: ' ' :: v.data)).drop (k.data.length + 1) = ' ' :: v.data := by
    have h2 : k.data ++ (':' :: ' ' :: v.data) = (k.data ++ [':']) ++ (' ' :: v.data) := by simp
    rw [h2, show k.data.length + 1 = (k.data ++ [':']).length by simp, List.drop_left]
  rw [hdrop]
  have hval : (' ' :: v.data).dropWhile Char.isWhitespace = v.data := by
    rw [List.dropWhile_cons, if_pos (by decide)]
    cases hv2 : v.data with
    | nil => rfl
    | cons c t => exact dropWhile_cons_false _ _ _ (hvf c (by rw [hv2]; rfl))
  rw [hval]

theorem injLine_parse (k v : String) (hk : k.data ≠ [])
    (hkc : ∀ c ∈ k.data, c ≠ ':') (hvne : v.data ≠ [])
    (hvf : ∀ c, v.data.head? = some c → c.isWhitespace = false)
    (hvl : ∀ c, v.data.reverse.head? = some c → c.isWhitespace = false) :
    pyMatchPropColon (pyStrip (":" ++ k ++ ": " ++ v ++ "\n")) = some (k, v) := by
  have d1 : (":" : String).data = [':'] := rfl
  have d2 : (": " : String).data = [':', ' '] := rfl
  have hd2 : (":" ++ k ++ ": " ++ v).data = (':' :: (k.data ++ [':', ' '])) ++ v.data := by
    simp only [String.data_append, d1, d2]
    simp
  have hstrip : pyStrip (":" ++ k ++ ": " ++ v ++ "\n") = ":" ++ k ++ ": " ++ v := by
    unfold pyStrip
    have hd : (":" ++ k ++ ": " ++ v ++ "\n").data
        = (":" ++ k ++ ": " ++ v).data ++ [Char.ofNat 10] := by
      rw [String.data_append]
    rw [hd, pyStripL_core]
    · intro c hc
      rw [hd2, List.cons_append] at hc
      simp only [List.head?_cons, Option.some.injEq] at hc
      rw [← hc]
      decide
    · intro c hc
      rcases hvr : v.data.reverse with _ | ⟨c0, r⟩
      · exact absurd (by simpa using congrArg List.reverse hvr) hvne
      · rw [hd2, List.reverse_append, hvr, List.cons_append] at hc
        simp only [List.head?_cons, Option.some.injEq] at hc
        rw [← hc]
        exact hvl c0 (by rw [hvr]; rfl)
  rw [hstrip]
  exact pyMatchPropColon_canonical k v hk hkc hvf

theorem wfPairB_spec (kv : String × String) (h : wfPairB kv = true) :
    kv.1.data ≠ [] ∧ (∀ c ∈ kv.1.data, c ≠ ':') ∧ kv.2.data ≠ [] ∧
    (∀ c, kv.2.data.head? = some c → c.isWhitespace = false) ∧
    (∀ c, kv.2.data.reverse.head? = some c → c.isWhitespace = false) := by
  unfold wfPairB at h
  simp only [Bool.and_eq_true] at h
  obtain ⟨⟨⟨⟨⟨ha, hb⟩, hc⟩, hd⟩, he⟩, hf⟩ := h
  refine ⟨?_, ?_, ?_, ?_, ?_⟩
  · intro hnil
    rw [hnil] at ha
    simp at ha
  · intro c hcm
    rw [List.all_eq_true] at hb
    have h2 := hb c hcm
    simp at h2
    exact h2.1
  · intro hnil
    rw [hnil] at hc
    simp at hc
  · intro c h4
    cases hx : kv.2.data with
    | nil =>
      rw [hx] at h4
      exact absurd h4 (by simp)
    | cons c0 t =>
      rw [hx] at he h4
      simp only [List.head?_cons, Option.some.injEq] at h4
      rw [← h4]
      simpa using he
  · intro c h4
    cases hx : kv.2.data.reverse with
    | nil =>
      rw [hx] at h4
      exact absurd h4 (by simp)
    | cons c0 t =>
      rw [hx] at hf h4
      simp only [List.head?_cons, Option.some.injEq] at h4
      rw [← h4]
      simpa using hf

theorem injParseProps_go (props : List (String × String)) :
    ∀ init : List (String × String),
    (∀ kv ∈ props, wfPairB kv = true) →
    (∀ kv ∈ props, ∀ x ∈ init, x.1 ≠ kv.1) →
    (props.map Prod.fst).Nodup →
    List.foldl injStep init (props.map (fun kv => ":" ++ kv.1 ++ ": " ++ kv.2 ++ "\n"))
      = init ++ props := by
  induction props with
  | nil =>
    intro init _ _ _
    simp
  | cons kv ps ih =>
    intro init hwf hdisj hnodup
    obtain ⟨hk, hkc, hvne, hvf, hvl⟩ := wfPairB_spec kv (hwf kv (List.mem_cons_self _ _))
    have hline := injLine_parse kv.1 kv.2 hk hkc hvne hvf hvl
    rw [List.map_cons, List.foldl_cons]
    have hstep : injStep init (":" ++ kv.1 ++ ": " ++ kv.2 ++ "\n") = init ++ [kv] := by
      unfold injStep
      rw [hline]
      dsimp only
      unfold pyDictInsert
      rw [if_neg ?hno]
      case hno =>
        intro hany
        rw [List.any_eq_true] at hany
        obtain ⟨x, hx, hbeq⟩ := hany
        exact (hdisj kv (List.mem_cons_self _ _) x hx) (by simpa using hbeq)
    rw [hstep, ih (init ++ [kv]) ?_ ?_ ?_]
    · simp
    · intro kv2 h2
      exact hwf kv2 (List.mem_cons_of_mem _ h2)
    · intro kv2 h2 kv3 h3
      rcases List.mem_append.mp h3 with h | h
      · exact hdisj kv2 (List.mem_cons_of_mem _ h2) kv3 h
      · have hkv : kv3 = kv := by simpa using h
        have hnotin : kv.1 ∉ ps.map Prod.fst := by
          have h5 : (kv.1 :: ps.map Prod.fst).Nodup := by simpa using hnodup
          exact (List.nodup_cons.mp h5).1
        rw [hkv]
        intro he
        exact hnotin (by rw [he]; exact List.mem_map_of_mem _ h2)
    · have h5 : (kv.1 :: ps.map Prod.fst).Nodup := by simpa using hnodup
      exact (List.nodup_cons.mp h5).2

/-- Claim C4 as frozen is false on the code: re-serializing a parsed block
is not the identity on every block.  A free-text line inside the block is
dropped by the regex and hence missing from the rebuilt block, and a line
`:A:v` without a space is normalized to `:A: v`. -/
theorem claim_C4_counterexample :
    injParseProps ["some note\n"] = [] ∧
    buildPropLines (injParseProps ["some note\n"]) = [":PROPERTIES:\n", ":END:\n"] ∧
    [":PROPERTIES:\n", ":END:\n"]
      ≠ [":PROPERTIES:\n"] ++ ["some note\n"] ++ [":END:\n"] ∧
    injParseProps [":A:v\n"] = [("A", "v")] ∧
    buildPropLines (injParseProps [":A:v\n"]) = [":PROPERTIES:\n", ":A: v\n", ":END:\n"] ∧
    [":PROPERTIES:\n", ":A: v\n", ":END:\n"]
      ≠ [":PROPERTIES:\n"] ++ [":A:v\n"] ++ [":END:\n"] := by
  refine ⟨?_, ?_, ?_, ?_, ?_, ?_⟩ <;> with_unfolding_all decide

/-- Claim C4 (amended): the parse/serialize round trip is the identity on
canonical property blocks: if every pair has a non-empty colon-free
newline-free key and a non-empty newline-free value with no leading or
trailing whitespace, and the keys are pairwise distinct, then parsing the
serialized lines and rebuilding the block reproduces it byte for byte. -/
theorem claim_C4_amended (props : List (String × String))
    (hwf : ∀ kv ∈ props, wfPairB kv = true)
    (hnodup : (props.map Prod.fst).Nodup) :
    buildPropLines (injParseProps (props.map (fun kv => ":" ++ kv.1 ++ ": " ++ kv.2 ++ "\n")))
      = ":PROPERTIES:\n" :: props.map (fun kv => ":" ++ kv.1 ++ ": " ++ kv.2 ++ "\n")
          ++ [":END:\n"] := by
  have h := injParseProps_go props [] hwf
    (fun kv _ x hx => absurd hx (List.not_mem_nil x)) hnodup
  unfold injParseProps
  rw [h]
  rfl

/-- Witness for `claim_C4_amended` at a concrete two-property block. -/
theorem claim_C4_witness :
    buildPropLines (injParseProps ([(("TMDB_ID" : String), ("123" : String)),
        (("YEAR" : String), ("1999" : String))].map
        (fun kv => ":" ++ kv.1 ++ ": " ++ kv.2 ++ "\n")))
      = ":PROPERTIES:\n" :: [(("TMDB_ID" : String), ("123" : String)),
          (("YEAR" : String), ("1999" : String))].map
          (fun kv => ":" ++ kv.1 ++ ": " ++ kv.2 ++ "\n") ++ [":END:\n"] :=
  claim_C4_amended [("TMDB_ID", "123"), ("YEAR", "1999")]
    (by with_unfolding_all decide) (by with_unfolding_all decide)

/-! ## Claim C3: duplicate-property cleanup (`deduplicate_properties.py`) -/

/-- Python `s.endswith(suf)`. -/
def pyEndsWith (s suf : String) : Bool := suf.data.isSuffixOf s.data

/-- The property-line test of `deduplicate_properties` (line 71) combined
with its second-colon test (line 74): the stripped line starts with `:`,
does not end with `:`, and has a colon after the first character. -/
def isPropLineB (l : String) : Bool :=
  pyStartsWith (pyStrip l) ":" && !(pyEndsWith (pyStrip l) ":")
    && ((pyStrip l).data.drop 1).contains ':'

/-- `property_line.split(':', 2)[1]` on a stripped property line: the part
between the first and second colon. -/
def propNameOf (pl : String) : String := ⟨(pl.data.drop 1).takeWhile (fun c => c ≠ ':')⟩

/-- The loop state of `deduplicate_properties`: the output lines, the
`in_properties` flag, and the tracker mapping each property name to the
line content of its latest occurrence. -/
structure DedupState where
  result : List String
  in_props : Bool
  props : List (String × String)
deriving DecidableEq

/-- One iteration of the `while` loop of `deduplicate_properties`
(lines 46-118).  On a duplicate name the loop deletes the last result line
equal to the tracked earlier occurrence (backwards search, lines 100-104)
and appends the new line; both markers reset the tracker. -/
def dedupStep (acc : DedupState) (line : String) : DedupState :=
  if pyStrip line == ":PROPERTIES:" then
    { result := acc.result ++ [line], in_props := true, props := [] }
  else if pyStrip line == ":END:" then
    { result := acc.result ++ [line], in_props := false, props := [] }
  else if acc.in_props && pyStartsWith (pyStrip line) ":"
      && !(pyEndsWith (pyStrip line) ":") then
    if ((pyStrip line).data.drop 1).contains ':' then
      match pyDictGet? acc.props (propNameOf (pyStrip line)) with
      | some first =>
        { result := (acc.result.reverse.erase first).reverse ++ [line],
          in_props := acc.in_props,
          props := pyDictInsert acc.props (propNameOf (pyStrip line)) line }
      | none =>
        { result := acc.result ++ [line], in_props := acc.in_props,
          props := pyDictInsert acc.props (propNameOf (pyStrip line)) line }
    else
      { result := acc.result ++ [line], in_props := acc.in_props, props := acc.props }
  else
    { result := acc.result ++ [line], in_props := acc.in_props, props := acc.props }

def dedupInit : DedupState := { result := [], in_props := false, props := [] }

/-- The pure core of `deduplicate_properties` (lines 34-118): the rewritten
lines. -/
def deduplicate_properties (lines : List String) : List String :=
  (lines.foldl dedupStep dedupInit).result

/-- The property names of the property lines of a block segment, in
order. -/
def dedupPropNames (ls : List String) : List String :=
  (ls.filter (fun l => isPropLineB l)).map (fun l => propNameOf (pyStrip l))

theorem dedupStep_marker_p (st : DedupState) (l : String) (h : pyStrip l = ":PROPERTIES:") :
    dedupStep st l = { result := st.result ++ [l], in_props := true, props := [] } := by
  unfold dedupStep
  rw [h]
  simp

theorem dedupStep_marker_e (st : DedupState) (l : String) (h : pyStrip l = ":END:") :
    dedupStep st l = { result := st.result ++ [l], in_props := false, props := [] } := by
  unfold dedupStep
  rw [h, if_neg (by decide), if_pos (by decide)]

theorem dedupStep_prop (st : DedupState) (l : String)
    (h1 : pyStrip l ≠ ":PROPERTIES:") (h2 : pyStrip l ≠ ":END:")
    (h3 : st.in_props = true) (h4 : isPropLineB l = true)
    (h5 : pyDictGet? st.props (propNameOf (pyStrip l)) = none) :
    dedupStep st l = { result := st.result ++ [l], in_props := true, props := pyDictInsert st.props (propNameOf (pyStrip l)) l } := by
  unfold dedupStep
  rw [if_neg (by simp [h1]), if_neg (by simp [h2])]
  unfold isPropLineB at h4
  simp only [Bool.and_eq_true] at h4
  obtain ⟨⟨hs, he⟩, hc⟩ := h4
  rw [if_pos (by rw [h3, hs, he]; rfl)]
  rw [if_pos hc, h5]
  dsimp only
  rw [h3]

theorem dedupStep_dup (st : DedupState) (l x : String)
    (h1 : pyStrip l ≠ ":PROPERTIES:") (h2 : pyStrip l ≠ ":END:")
    (h3 : st.in_props = true) (h4 : isPropLineB l = true)
    (h5 : pyDictGet? st.props (propNameOf (pyStrip l)) = some x) :
    dedupStep st l = { result := (st.result.reverse.erase x).reverse ++ [l], in_props := true, props := pyDictInsert st.props (propNameOf (pyStrip l)) l } := by
  unfold dedupStep
  rw [if_neg (by simp [h1]), if_neg (by simp [h2])]
  unfold isPropLineB at h4
  simp only [Bool.and_eq_true] at h4
  obtain ⟨⟨hs, he⟩, hc⟩ := h4
  rw [if_pos (by rw [h3, hs, he]; rfl)]
  rw [if_pos hc, h5]
  dsimp only
  rw [h3]

theorem dedupStep_plain (st : DedupState) (l : String)
    (h1 : pyStrip l ≠ ":PROPERTIES:") (h2 : pyStrip l ≠ ":END:")
    (h4 : isPropLineB l = false) :
    dedupStep st l = { result := st.result ++ [l], in_props := st.in_props, props := st.props } := by
  unfold dedupStep
  rw [if_neg (by simp [h1]), if_neg (by simp [h2])]
  by_cases hcond : (st.in_props && pyStartsWith (pyStrip l) ":"
      && !(pyEndsWith (pyStrip l) ":")) = true
  · rw [if_pos hcond]
    simp only [Bool.and_eq_true] at hcond
    obtain ⟨⟨hin, hs⟩, he⟩ := hcond
    unfold isPropLineB at h4
    rw [hs, he] at h4
    simp at h4
    rw [if_neg (by simp [h4])]
  · rw [if_neg hcond]

theorem get_replace_self (k v : String) : ∀ m : List (String × String),
    m.any (fun kv => kv.1 == k) = true →
    (((m.map (fun kv => if kv.1 == k then (kv.1, v) else kv)).find?
        (fun kv => kv.1 == k)).map Prod.snd) = some v := by
  intro m
  induction m with
  | nil => intro h; simp at h
  | cons a t ih =>
    intro h
    simp only [List.map_cons]
    by_cases ha : (a.1 == k) = true
    · rw [if_pos ha, List.find?_cons_of_pos _ (by simpa using ha)]
      rfl
    · rw [if_neg ha, List.find?_cons_of_neg _ (by simpa using ha)]
      apply ih
      rw [List.any_cons] at h
      rcases (Bool.or_eq_true _ _).mp h with h' | h'
      · exact absurd h' ha
      · exact h'

theorem pyDictGet?_insert_self (m : List (String × String)) (k v : String) :
    pyDictGet? (pyDictInsert m k v) k = some v := by
  unfold pyDictInsert
  by_cases h : m.any (fun kv => kv.1 == k) = true
  · rw [if_pos h]
    unfold pyDictGet?
    exact get_replace_self k v m h
  · rw [if_neg h]
    unfold pyDictGet?
    have hnone : m.find? (fun kv => kv.1 == k) = none := by
      rw [List.find?_eq_none]
      intro x hx hpx
      exact h (List.any_eq_true.mpr ⟨x, hx, hpx⟩)
    have happ : ∀ m2 : List (String × String),
        m2.find? (fun kv => kv.1 == k) = none →
        (m2 ++ [(k, v)]).find? (fun kv => kv.1 == k) = some (k, v) := by
      intro m2
      induction m2 with
      | nil =>
        intro _
        simp only [List.nil_append]
        exact @List.find?_cons_of_pos _ (fun kv => kv.1 == k) (k, v) [] (by simp)
      | cons a t ih =>
        intro hn
        have hhd : ((a.1 : String) == k) = false := by
          simpa using List.find?_eq_none.mp hn a (List.mem_cons_self _ _)
        simp only [List.cons_append]
        rw [@List.find?_cons_of_neg _ (fun kv => kv.1 == k) a (t ++ [(k, v)]) (by simp [hhd])]
        refine ih ?_
        rw [List.find?_eq_none]
        intro x hx hpx
        exact (List.find?_eq_none.mp hn x (List.mem_cons_of_mem _ hx)) hpx
    rw [happ m hnone]
    rfl

theorem pyDictGet?_insert_ne (m : List (String × String)) (k v k' : String) (h : k' ≠ k) :
    pyDictGet? (pyDictInsert m k v) k' = pyDictGet? m k' := by
  unfold pyDictInsert
  by_cases hany : m.any (fun kv => kv.1 == k) = true
  · rw [if_pos hany]
    unfold pyDictGet?
    have hmap : ∀ m2 : List (String × String),
        ((m2.map (fun kv => if kv.1 == k then (kv.1, v) else kv)).find?
          (fun kv => kv.1 == k')).map Prod.snd
          = (m2.find? (fun kv => kv.1 == k')).map Prod.snd := by
      intro m2
      induction m2 with
      | nil => rfl
      | cons a t ih =>
        simp only [List.map_cons]
        by_cases ha : (a.1 == k) = true
        · rw [if_pos ha]
          by_cases ha' : (a.1 == k') = true
          · have e1 : a.1 = k := by simpa using ha
            have e2 : a.1 = k' := by simpa using ha'
            exact absurd (e2.symm.trans e1) h
          · rw [@List.find?_cons_of_neg _ (fun kv => kv.1 == k') (a.1, v)
                (List.map (fun kv => if kv.1 == k then (kv.1, v) else kv) t) (by simpa using ha'),
              @List.find?_cons_of_neg _ (fun kv => kv.1 == k') a t (by simpa using ha')]
            exact ih
        · rw [if_neg ha]
          by_cases ha' : (a.1 == k') = true
          · rw [@List.find?_cons_of_pos _ (fun kv => kv.1 == k') a
                (List.map (fun kv => if kv.1 == k then (kv.1, v) else kv) t) ha',
              @List.find?_cons_of_pos _ (fun kv => kv.1 == k') a t ha']
          · rw [@List.find?_cons_of_neg _ (fun kv => kv.1 == k') a
                (List.map (fun kv => if kv.1 == k then (kv.1, v) else kv) t) (by simpa using ha'),
              @List.find?_cons_of_neg _ (fun kv => kv.1 == k') a t (by simpa using ha')]
            exact ih
    exact hmap m
  · rw [if_neg hany]
    unfold pyDictGet?
    have happ : ∀ m2 : List (String × String),
        (m2 ++ [(k, v)]).find? (fun kv => kv.1 == k')
          = m2.find? (fun kv => kv.1 == k') := by
      intro m2
      induction m2 with
      | nil =>
        simp only [List.nil_append]
        rw [@List.find?_cons_of_neg _ (fun kv => kv.1 == k') (k, v) [] (by simpa using Ne.symm h)]
      | cons a t ih =>
        by_cases ha' : (a.1 == k') = true
        · simp only [List.cons_append]
          rw [@List.find?_cons_of_pos _ (fun kv => kv.1 == k') a (t ++ [(k, v)]) ha',
            @List.find?_cons_of_pos _ (fun kv => kv.1 == k') a t ha']
        · simp only [List.cons_append]
          rw [@List.find?_cons_of_neg _ (fun kv => kv.1 == k') a (t ++ [(k, v)]) (by simpa using ha'),
            @List.find?_cons_of_neg _ (fun kv => kv.1 == k') a t (by simpa using ha')]
          exact ih
    rw [happ m]

theorem erase_last_eq (R b2 : List String) (x : String) (hx : x ∉ b2) :
    ((R ++ [x] ++ b2).reverse.erase x).reverse = R ++ b2 := by
  have h1 : (R ++ [x] ++ b2).reverse = b2.reverse ++ (x :: R.reverse) := by simp
  rw [h1, List.erase_append_right _ (by simpa using hx), List.erase_cons_head]
  simp

theorem dedupPropNames_cons_prop (hd : String) (tl : List String) (hp : isPropLineB hd = true) :
    dedupPropNames (hd :: tl) = propNameOf (pyStrip hd) :: dedupPropNames tl := by
  unfold dedupPropNames
  simp [List.filter_cons, hp]

theorem dedupPropNames_cons_plain (hd : String) (tl : List String) (hp : isPropLineB hd = false) :
    dedupPropNames (hd :: tl) = dedupPropNames tl := by
  unfold dedupPropNames
  simp [List.filter_cons, hp]

theorem dedupPropNames_append (l1 l2 : List String) :
    dedupPropNames (l1 ++ l2) = dedupPropNames l1 ++ dedupPropNames l2 := by
  unfold dedupPropNames
  rw [List.filter_append, List.map_append]

theorem dedup_fold_fresh (ls : List String) : ∀ st : DedupState,
    st.in_props = true →
    (∀ l ∈ ls, pyStrip l ≠ ":PROPERTIES:" ∧ pyStrip l ≠ ":END:") →
    (∀ n ∈ dedupPropNames ls, pyDictGet? st.props n = none) →
    (dedupPropNames ls).Nodup →
    (List.foldl dedupStep st ls).result = st.result ++ ls ∧
    (List.foldl dedupStep st ls).in_props = true ∧
    (∀ n, n ∉ dedupPropNames ls →
      pyDictGet? (List.foldl dedupStep st ls).props n = pyDictGet? st.props n) := by
  induction ls with
  | nil =>
    intro st h1 _ _ _
    exact ⟨by simp, h1, fun n _ => rfl⟩
  | cons hd tl ih =>
    intro st hin hmk hfresh hnd
    by_cases hp : isPropLineB hd = true
    · have hnames := dedupPropNames_cons_prop hd tl hp
      have hget : pyDictGet? st.props (propNameOf (pyStrip hd)) = none :=
        hfresh _ (by rw [hnames]; exact List.mem_cons_self _ _)
      rw [List.foldl_cons,
        dedupStep_prop st hd (hmk hd (List.mem_cons_self _ _)).1
          (hmk hd (List.mem_cons_self _ _)).2 hin hp hget]
      rw [hnames] at hnd hfresh
      have hf1 : ∀ n ∈ dedupPropNames tl,
          pyDictGet? (pyDictInsert st.props (propNameOf (pyStrip hd)) hd) n = none := by
        intro n hn
        have hne : n ≠ propNameOf (pyStrip hd) := fun he =>
          (List.nodup_cons.mp hnd).1 (he ▸ hn)
        rw [pyDictGet?_insert_ne _ _ _ _ hne]
        exact hfresh n (List.mem_cons_of_mem _ hn)
      obtain ⟨ha, hb, hc⟩ := ih
        { result := st.result ++ [hd], in_props := true, props := pyDictInsert st.props (propNameOf (pyStrip hd)) hd }
        rfl (fun l hl => hmk l (List.mem_cons_of_mem _ hl)) hf1 ((List.nodup_cons.mp hnd).2)
      refine ⟨?_, hb, ?_⟩
      · rw [ha]
        simp
      · intro n hn
        rw [hnames] at hn
        have hn1 : n ≠ propNameOf (pyStrip hd) := fun he => hn (he ▸ List.mem_cons_self _ _)
        have hn2 : n ∉ dedupPropNames tl := fun h => hn (List.mem_cons_of_mem _ h)
        rw [hc n hn2]
        exact pyDictGet?_insert_ne _ _ _ _ hn1
    · have hp2 : isPropLineB hd = false := by
        rw [Bool.not_eq_true] at hp
        exact hp
      have hnames := dedupPropNames_cons_plain hd tl hp2
      rw [List.foldl_cons,
        dedupStep_plain st hd (hmk hd (List.mem_cons_self _ _)).1
          (hmk hd (List.mem_cons_self _ _)).2 hp2]
      rw [hnames] at hnd hfresh
      obtain ⟨ha, hb, hc⟩ := ih
        { result := st.result ++ [hd], in_props := st.in_props, props := st.props }
        hin (fun l hl => hmk l (List.mem_cons_of_mem _ hl)) hfresh hnd
      refine ⟨?_, hb, ?_⟩
      · rw [ha]
        simp
      · intro n hn
        rw [hnames] at hn
        exact hc n hn

/-- Claim C3: duplicate-key cleanup.  For a well-formed property block in
which exactly one key occurs twice (at lines `x` then `y`) and the other
property names are distinct and different from it, the run keeps the later
line `y` in its original position, deletes the earlier line `x`, copies
every other line unchanged, and continues behind the block in the reset
state -- independent of what precedes the block. -/
theorem claim_C3 (pre b1 b2 b3 post : List String) (pm x y em : String)
    (hpm : pyStrip pm = ":PROPERTIES:")
    (hem : pyStrip em = ":END:")
    (hmk : ∀ l ∈ b1 ++ [x] ++ b2 ++ [y] ++ b3,
      pyStrip l ≠ ":PROPERTIES:" ∧ pyStrip l ≠ ":END:")
    (hx : isPropLineB x = true) (hy : isPropLineB y = true)
    (hK : propNameOf (pyStrip y) = propNameOf (pyStrip x))
    (hforb : ∀ n ∈ dedupPropNames (b1 ++ b2 ++ b3), n ≠ propNameOf (pyStrip x))
    (hnd : (dedupPropNames (b1 ++ b2 ++ b3)).Nodup)
    (hxb2 : x ∉ b2) :
    deduplicate_properties (pre ++ [pm] ++ b1 ++ [x] ++ b2 ++ [y] ++ b3 ++ [em] ++ post)
      = (List.foldl dedupStep
          { result := (List.foldl dedupStep dedupInit pre).result ++ [pm] ++ b1 ++ b2 ++ [y] ++ b3 ++ [em], in_props := false, props := [] } post).result := by
  have hmk1 : ∀ l ∈ b1, pyStrip l ≠ ":PROPERTIES:" ∧ pyStrip l ≠ ":END:" :=
    fun l hl => hmk l (by simp [hl])
  have hmk2 : ∀ l ∈ b2, pyStrip l ≠ ":PROPERTIES:" ∧ pyStrip l ≠ ":END:" :=
    fun l hl => hmk l (by simp [hl])
  have hmk3 : ∀ l ∈ b3, pyStrip l ≠ ":PROPERTIES:" ∧ pyStrip l ≠ ":END:" :=
    fun l hl => hmk l (by simp [hl])
  have hmkx : pyStrip x ≠ ":PROPERTIES:" ∧ pyStrip x ≠ ":END:" := hmk x (by simp)
  have hmky : pyStrip y ≠ ":PROPERTIES:" ∧ pyStrip y ≠ ":END:" := hmk y (by simp)
  have hnapp : dedupPropNames (b1 ++ b2 ++ b3)
      = dedupPropNames b1 ++ (dedupPropNames b2 ++ dedupPropNames b3) := by
    rw [dedupPropNames_append, dedupPropNames_append, List.append_assoc]
  have hnd2 : (dedupPropNames b1 ++ (dedupPropNames b2 ++ dedupPropNames b3)).Nodup := by
    rw [← hnapp]
    exact hnd
  rw [List.nodup_append] at hnd2
  obtain ⟨hnd_b1, hnd_b23, hdisj1⟩ := hnd2
  rw [List.nodup_append] at hnd_b23
  obtain ⟨hnd_b2, hnd_b3, hdisj23⟩ := hnd_b23
  have hforb1 : ∀ n ∈ dedupPropNames b1, n ≠ propNameOf (pyStrip x) :=
    fun n hn => hforb n (by rw [hnapp]; exact List.mem_append_left _ hn)
  have hforb2 : ∀ n ∈ dedupPropNames b2, n ≠ propNameOf (pyStrip x) :=
    fun n hn => hforb n
      (by rw [hnapp]; exact List.mem_append_right _ (List.mem_append_left _ hn))
  have hforb3 : ∀ n ∈ dedupPropNames b3, n ≠ propNameOf (pyStrip x) :=
    fun n hn => hforb n
      (by rw [hnapp]; exact List.mem_append_right _ (List.mem_append_right _ hn))
  unfold deduplicate_properties
  simp only [List.foldl_append, List.foldl_cons, List.foldl_nil]
  set S0 := List.foldl dedupStep dedupInit pre with hS0def
  rw [dedupStep_marker_p _ pm hpm]
  set S1 : DedupState := { result := S0.result ++ [pm], in_props := true, props := [] } with hS1def
  have hp1 : S1.props = [] := by rw [hS1def]
  obtain ⟨ha1, hb1', hc1⟩ := dedup_fold_fresh b1 S1 (by rw [hS1def])
    hmk1 (fun n _ => by rw [hp1]; rfl) hnd_b1
  set S2 := List.foldl dedupStep S1 b1 with hS2def
  have hgx : pyDictGet? S2.props (propNameOf (pyStrip x)) = none := by
    rw [hc1 _ (fun h => (hforb1 _ h) rfl), hp1]
    rfl
  rw [dedupStep_prop S2 x hmkx.1 hmkx.2 hb1' hx hgx]
  set S3 : DedupState := { result := S2.result ++ [x], in_props := true, props := pyDictInsert S2.props (propNameOf (pyStrip x)) x } with hS3def
  have hp3 : S3.props = pyDictInsert S2.props (propNameOf (pyStrip x)) x := by rw [hS3def]
  have hr3 : S3.result = S2.result ++ [x] := by rw [hS3def]
  have hf2 : ∀ n ∈ dedupPropNames b2, pyDictGet? S3.props n = none := by
    intro n hn
    rw [hp3, pyDictGet?_insert_ne _ _ _ _ (hforb2 n hn),
      hc1 n (fun h => hdisj1 h (List.mem_append_left _ hn)), hp1]
    rfl
  obtain ⟨ha2, hb2', hc2⟩ := dedup_fold_fresh b2 S3 (by rw [hS3def]) hmk2 hf2 hnd_b2
  set S4 := List.foldl dedupStep S3 b2 with hS4def
  have hgy : pyDictGet? S4.props (propNameOf (pyStrip y)) = some x := by
    rw [hK, hc2 _ (fun h => (hforb2 _ h) rfl), hp3]
    exact pyDictGet?_insert_self _ _ _
  rw [dedupStep_dup S4 y x hmky.1 hmky.2 hb2' hy hgy]
  set S5 : DedupState := { result := (S4.result.reverse.erase x).reverse ++ [y], in_props := true, props := pyDictInsert S4.props (propNameOf (pyStrip y)) y } with hS5def
  have hp5 : S5.props = pyDictInsert S4.props (propNameOf (pyStrip y)) y := by rw [hS5def]
  have hr5 : S5.result = (S4.result.reverse.erase x).reverse ++ [y] := by rw [hS5def]
  have hf3 : ∀ n ∈ dedupPropNames b3, pyDictGet? S5.props n = none := by
    intro n hn
    rw [hp5, hK, pyDictGet?_insert_ne _ _ _ _ (hforb3 n hn),
      hc2 n (fun h => hdisj23 h hn), hp3,
      pyDictGet?_insert_ne _ _ _ _ (hforb3 n hn),
      hc1 n (fun h => hdisj1 h (List.mem_append_right _ hn)), hp1]
    rfl
  obtain ⟨ha3, hb3', hc3⟩ := dedup_fold_fresh b3 S5 (by rw [hS5def]) hmk3 hf3 hnd_b3
  set S6 := List.foldl dedupStep S5 b3 with hS6def
  rw [dedupStep_marker_e S6 em hem]
  congr 2
  rw [ha3, hr5, ha2, hr3, ha1]
  have hr1 : S1.result = S0.result ++ [pm] := by rw [hS1def]
  rw [erase_last_eq (S1.result ++ b1) b2 x hxb2, hr1]

/-- A concrete duplicate block for the `claim_C3` witness: `:YEAR: 1999`
then `:YEAR: 2001` in one block yields exactly one `:YEAR: 2001` line at
the later position. -/
theorem claim_C3_witness :
    deduplicate_properties ([] ++ [":PROPERTIES:\n"] ++ [] ++ [":YEAR: 1999\n"]
        ++ [] ++ [":YEAR: 2001\n"] ++ [] ++ [":END:\n"] ++ ["* Next\n"])
      = (List.foldl dedupStep
          { result := (List.foldl dedupStep dedupInit []).result ++ [":PROPERTIES:\n"] ++ [] ++ [] ++ [":YEAR: 2001\n"] ++ [] ++ [":END:\n"], in_props := false, props := [] } ["* Next\n"]).result :=
  claim_C3 [] [] [] [] ["* Next\n"] ":PROPERTIES:\n" ":YEAR: 1999\n" ":YEAR: 2001\n" ":END:\n"
    (by with_unfolding_all decide) (by with_unfolding_all decide)
    (by
      intro l hl
      simp at hl
      rcases hl with rfl | rfl
      · exact ⟨by with_unfolding_all decide, by with_unfolding_all decide⟩
      · exact ⟨by with_unfolding_all decide, by with_unfolding_all decide⟩)
    (by with_unfolding_all decide) (by with_unfolding_all decide) (by with_unfolding_all decide)
    (by intro n hn; simp [dedupPropNames] at hn) (by with_unfolding_all decide)
    (by simp)

/-! ## Claim C1 -/

/-- Claim C1 as frozen is false on the code: the suggested-search scorer
`calculate_confidence` gives 70 for query "ab" against candidate
(title "ax", original title "ax", release date "1995-12-15") with year hint
1995, while the claimed formula (max of the two ratios, bonus 10 on exact
year agreement, capped) gives 60; and `calculate_match_score` at the falsy
year hint 0 gives 0 where the claimed formula gives 10. -/
theorem claim_C1_counterexample :
    calculate_confidence "Heat" "ab" "ax" (some 1995) "1995-12-15" = 70 ∧
    specScoreC1 "ab" "ax" "ax" (some 1995) (some "1995-12-15") = 60 ∧
    calculate_confidence "Heat" "ab" "ax" (some 1995) "1995-12-15" ≠
      specScoreC1 "ab" "ax" "ax" (some 1995) (some "1995-12-15") ∧
    calculate_match_score "ab" "cd" "cd" (some 0) (some "0000-01-01") = Except.ok 0 ∧
    specScoreC1 "ab" "cd" "cd" (some 0) (some "0000-01-01") = 10 := by
  refine ⟨?_, ?_, ?_, ?_, ?_⟩
  · with_unfolding_all decide
  · with_unfolding_all decide
  · with_unfolding_all decide
  · with_unfolding_all decide
  · with_unfolding_all decide

/-- Claim C1 (amended): for `calculate_match_score` every non-raising score
equals `min 100 (base + bonus)` where `base` is the maximum of the two
lowercased fuzzy ratios and the bonus is 10 / 5 / 0 as claimed but only
when the year hint is present and nonzero (Python truthiness) and the
release-date string is non-empty; the suggested-search variant
`calculate_confidence` instead compares the suggested string against the
localized title only, with bonuses 20 / 10 under the same truthiness
conditions. -/
theorem claim_C1_amended :
    (∀ (o lt ot : String) (yh : Option Int) (ty : Option String) (v : ℚ),
      calculate_match_score o lt ot yh ty = Except.ok v →
        v = min 100 (baseScore o lt ot + amendedYearBonus yh ty)) ∧
    (∀ (o sug t : String) (yh : Option Int) (ty : String),
      calculate_confidence o sug t yh ty
        = min 100 (fuzzRatio (pyLower sug) (pyLower t) + specYearBonus2010 yh ty)) := by
  constructor
  · intro o lt ot yh ty v h
    exact calculate_match_score_ok_eq o lt ot yh ty v h
  · intro o sug t yh ty
    unfold calculate_confidence
    rw [yearBonus20_eq_spec]

/-- Witness for `claim_C1_amended` at concrete inputs. -/
theorem claim_C1_amended_witness :
    ((5 : ℚ) = min 100 (baseScore "ab" "cd" "cd" + amendedYearBonus (some 1995) (some "1996-01-01"))) ∧
    calculate_confidence "h" "ab" "ax" (some 1995) "1995-12-15"
      = min 100 (fuzzRatio (pyLower "ab") (pyLower "ax") + specYearBonus2010 (some 1995) "1995-12-15") :=
  ⟨claim_C1_amended.1 "ab" "cd" "cd" (some 1995) (some "1996-01-01") 5
      (by with_unfolding_all decide),
    claim_C1_amended.2 "h" "ab" "ax" (some 1995) "1995-12-15"⟩

/-! ## Claim C9 -/

/-- Claim C9: for a fixed year bonus (i.e. fixed year hint and release
date), the final score of `calculate_match_score` is monotonically
non-decreasing in the base title-similarity score; every returned score is
at most 100 and equals `min 100 (base + bonus)`; the capped suggested-search
scorer `calculate_confidence` is likewise monotone in the title ratio and
bounded by 100. -/
theorem claim_C9 :
    (∀ (b1 b2 : ℚ) (yh : Option Int) (ty : Option String) (v1 v2 : ℚ),
      b1 ≤ b2 → yearBonusStep b1 yh ty = Except.ok v1 →
        yearBonusStep b2 yh ty = Except.ok v2 → v1 ≤ v2) ∧
    (∀ (o lt ot : String) (yh : Option Int) (ty : Option String) (v : ℚ),
      calculate_match_score o lt ot yh ty = Except.ok v →
        v ≤ 100 ∧ v = min 100 (baseScore o lt ot + amendedYearBonus yh ty)) ∧
    (∀ (r1 r2 : ℚ) (yh : Option Int) (ty : String), r1 ≤ r2 →
      min 100 (r1 + yearBonus20 yh ty) ≤ min 100 (r2 + yearBonus20 yh ty)) ∧
    (∀ (o sug t : String) (yh : Option Int) (ty : String),
      calculate_confidence o sug t yh ty ≤ 100) := by
  refine ⟨?_, ?_, ?_, ?_⟩
  · intro b1 b2 yh ty v1 v2 hb h1 h2
    exact yearBonusStep_mono b1 b2 yh ty v1 v2 hb h1 h2
  · intro o lt ot yh ty v h
    have he := calculate_match_score_ok_eq o lt ot yh ty v h
    exact ⟨he ▸ min_le_left _ _, he⟩
  · intro r1 r2 yh ty hr
    exact min_le_min (le_refl _) (by linarith)
  · intro o sug t yh ty
    exact min_le_left _ _

/-- Witness for `claim_C9` at concrete inputs. -/
theorem claim_C9_witness :
    ((50 : ℚ) ≤ 60) ∧
    ((60 : ℚ) ≤ 100 ∧ (60 : ℚ) = min 100 (baseScore "ab" "ax" "ax" + amendedYearBonus (some 1995) (some "1995-12-15"))) ∧
    (min 100 ((0 : ℚ) + yearBonus20 none "") ≤ min 100 ((50 : ℚ) + yearBonus20 none "")) :=
  ⟨claim_C9.1 40 50 (some 1995) (some "1995-12-15") 50 60 (by norm_num)
      (by with_unfolding_all decide) (by with_unfolding_all decide),
    claim_C9.2.1 "ab" "ax" "ax" (some 1995) (some "1995-12-15") 60
      (by with_unfolding_all decide),
    claim_C9.2.2.1 0 50 none "" (by norm_num)⟩

/-! ## Claim C10 -/

/-- Claim C10: `calculate_match_score` is total whenever every non-empty
release-date string has an integer before its first dash, its error branch
is reachable (year hint present, release date "n/a"), and the
suggested-search scorer `calculate_confidence` catches the conversion
failure and applies no bonus. -/
theorem claim_C10 :
    (∀ (o lt ot : String) (yh : Option Int) (ty : Option String),
      (∀ s, ty = some s → s ≠ "" → (pyToInt (beforeDash s)).isSome) →
        ∃ v, calculate_match_score o lt ot yh ty = Except.ok v) ∧
    calculate_match_score "Movie" "Film" "Kino" (some 1995) (some "n/a") = Except.error () ∧
    (∀ (o sug t : String) (yh : Option Int) (ty : String),
      pyToInt (takeFirst4 ty) = none →
        calculate_confidence o sug t yh ty = min 100 (fuzzRatio (pyLower sug) (pyLower t))) := by
  refine ⟨?_, ?_, ?_⟩
  · intro o lt ot yh ty hty
    unfold calculate_match_score yearBonusStep
    cases yh with
    | none =>
      cases ty with
      | none => exact ⟨_, rfl⟩
      | some t => exact ⟨_, rfl⟩
    | some y =>
      cases ty with
      | none => exact ⟨_, rfl⟩
      | some t =>
        dsimp only
        by_cases hc : y ≠ 0 ∧ t ≠ ""
        · rw [if_pos hc]
          have hs := hty t rfl hc.2
          cases hp : pyToInt (beforeDash t) with
          | none => rw [hp] at hs; exact absurd hs (by simp)
          | some r =>
            dsimp only
            by_cases hr1 : r = y
            · rw [if_pos hr1]; exact ⟨_, rfl⟩
            · rw [if_neg hr1]
              by_cases hr2 : (r - y).natAbs ≤ 1
              · rw [if_pos hr2]; exact ⟨_, rfl⟩
              · rw [if_neg hr2]; exact ⟨_, rfl⟩
        · rw [if_neg hc]; exact ⟨_, rfl⟩
  · with_unfolding_all decide
  · intro o sug t yh ty hp
    unfold calculate_confidence yearBonus20
    cases yh with
    | none => rw [add_zero]
    | some y =>
      dsimp only
      by_cases hc : y ≠ 0 ∧ ty ≠ ""
      · rw [if_pos hc, hp, add_zero]
      · rw [if_neg hc, add_zero]

/-- Witness for `claim_C10` at concrete inputs. -/
theorem claim_C10_witness :
    (∃ v, calculate_match_score "Heat" "Heat" "Heat" (some 1995) (some "1995-12-15") = Except.ok v) ∧
    calculate_confidence "x" "q" "y" (some 2000) "n/a"
      = min 100 (fuzzRatio (pyLower "q") (pyLower "y")) :=
  ⟨claim_C10.1 "Heat" "Heat" "Heat" (some 1995) (some "1995-12-15")
      (fun s h hne => by cases h; with_unfolding_all decide),
    claim_C10.2.2 "x" "q" "y" (some 2000) "n/a" (by with_unfolding_all decide)⟩

end Euporious
